import Mathlib

/-!
Verification of the speaker-identity subsystem of SETDramaData.

The definitions below are a shallow embedding of the relevant Python code:

* `src/speaker_database.py` — the SQLite-backed identity store
  (`SpeakerDatabase`): `add_speaker`, `find_similar_speaker`,
  `update_speaker_embedding`, `update_speaker_episode`,
  `get_processed_episodes`, `mark_episode_processed`.
* `src/speaker_level_segmentation.py` — the speaker-level two-stage
  pipeline: `assign_global_speaker_ids_by_embedding`,
  `generate_final_segments_with_subtitles`,
  `get_dominant_speaker_in_range`.
* `src/pyannote_speaker_segmentation.py` — the tail of `main` (segment
  emission, the empty-segment early exit, and the final
  `mark_episode_processed` call).

Embeddings (numpy float32 arrays) are modelled as lists of real numbers;
times in the segment builder are modelled as rationals.  SQLite rows are
modelled as Lean lists of structures; `INSERT` appends, `UPDATE` maps in
place, and the auto-assigned rowid is an explicit `nextId` counter.
-/

namespace SETDrama

/-- A voice-signature vector (numpy 1-D float array, idealised over ℝ). -/
abbrev Vec := List ℝ

/-- Dot product of two vectors (trailing entries of the longer one are
ignored, as `np.dot`/`torch` would reject mismatched shapes anyway). -/
def dot : Vec → Vec → ℝ
  | a :: as, b :: bs => a * b + dot as bs
  | _, _ => 0

/-- Euclidean norm, `np.linalg.norm`. -/
noncomputable def l2norm (v : Vec) : ℝ := Real.sqrt (dot v v)

/-- `v / np.linalg.norm(v)` (elementwise division by the norm). -/
noncomputable def normalize (v : Vec) : Vec := v.map (fun x => x / l2norm v)

/-- `torch.nn.functional.cosine_similarity` of two 1-D vectors,
idealised without the `eps` clamp: `a·b / (|a|·|b|)`. -/
noncomputable def cosineSim (a b : Vec) : ℝ := dot a b / (l2norm a * l2norm b)

/-- A row of the `speakers` table (`speaker_database.py`, `init_database`):
`speaker_id INTEGER PRIMARY KEY, embedding BLOB, embedding_dim INTEGER,
episode_count INTEGER DEFAULT 1, segment_count INTEGER DEFAULT 0`.
Timestamps and the free-text `notes` column are not modelled. -/
structure SpeakerRow where
  speaker_id : Nat
  embedding : Vec
  embedding_dim : Nat
  episode_count : Nat
  segment_count : Nat

/-- A row of the `speaker_episodes` table: `(speaker_id, episode_num,
local_label, segment_count)`, `UNIQUE(speaker_id, episode_num)`. -/
structure EpisodeRow where
  speaker_id : Nat
  episode_num : Nat
  local_label : String
  segment_count : Nat

/-- The persistent state of `SpeakerDatabase`: the `speakers` table (in
rowid order), the next auto-assigned rowid, the `speaker_episodes` table
and the JSON list stored under the `processed_episodes` key of
`processing_state`. -/
structure SpeakerDB where
  speakers : List SpeakerRow
  nextId : Nat
  episodes : List EpisodeRow
  processed : List Nat

/-- A freshly initialised database (`init_database`): empty tables,
first SQLite rowid is 1. -/
def initDB : SpeakerDB := ⟨[], 1, [], []⟩

/-- Sorted insertion, the building block of `pySort`. -/
def insertSorted (x : Nat) : List Nat → List Nat
  | [] => [x]
  | y :: ys => if x ≤ y then x :: y :: ys else y :: insertSorted x ys

/-- Ascending stable sort, modelling Python's `list.sort()` on the
processed-episode list. -/
def pySort : List Nat → List Nat
  | [] => []
  | x :: xs => insertSorted x (pySort xs)

/-- `SpeakerDatabase.get_processed_episodes` (lines 335-347): the JSON
list stored in `processing_state`, `[]` when absent. -/
def get_processed_episodes (db : SpeakerDB) : List Nat := db.processed

/-- `SpeakerDatabase.mark_episode_processed` (lines 349-362): read the
processed list; if the episode is absent, append it, sort, and write the
list back; otherwise do nothing. -/
def mark_episode_processed (db : SpeakerDB) (episode_num : Nat) : SpeakerDB :=
  if episode_num ∈ get_processed_episodes db then db
  else { db with processed := pySort (get_processed_episodes db ++ [episode_num]) }

/-- `SpeakerDatabase.add_speaker` (lines 85-118): insert a new row into
`speakers` with the embedding stored exactly as given (the float32 cast is
the identity in this idealisation), `embedding_dim` equal to the input's
own size, the default `episode_count` of 1 and the given `segment_count`;
record the first episode appearance; return the fresh rowid. -/
def add_speaker (db : SpeakerDB) (embedding : Vec) (episode_num : Nat)
    (local_label : String) (segment_count : Nat) : SpeakerDB × Nat :=
  let sid := db.nextId
  let row : SpeakerRow :=
    { speaker_id := sid, embedding := embedding, embedding_dim := embedding.length,
      episode_count := 1, segment_count := segment_count }
  let app : EpisodeRow :=
    { speaker_id := sid, episode_num := episode_num, local_label := local_label,
      segment_count := segment_count }
  ({ db with
      speakers := db.speakers ++ [row], nextId := sid + 1,
      episodes := db.episodes ++ [app] }, sid)

/-- One iteration of the comparison loop of `find_similar_speaker`
(lines 150-166): keep the incumbent `(best_speaker_id, max_similarity)`
unless this row's cosine similarity is strictly greater. -/
noncomputable def bestMatchStep (q : Vec) (acc : Option Nat × ℝ)
    (row : SpeakerRow) : Option Nat × ℝ :=
  if cosineSim q row.embedding > acc.2 then (some row.speaker_id, cosineSim q row.embedding)
  else acc

/-- The scan part of `find_similar_speaker` (lines 133-166): `(None, 0.0)`
on an empty `speakers` table, otherwise the fold of `bestMatchStep`
starting from `best_speaker_id = None`, `max_similarity = 0.0`. -/
noncomputable def findMostSimilar (db : SpeakerDB) (q : Vec) : Option Nat × ℝ :=
  match db.speakers with
  | [] => (none, 0)
  | _ :: _ => db.speakers.foldl (bestMatchStep q) (none, 0)

/-- `SpeakerDatabase.update_speaker_embedding` (lines 179-232): look the
speaker up; if absent return `False`; otherwise blend the stored embedding
with the new one using weights `old_weight = max(1.0, segment_count)` and
the caller-supplied `new_weight`, divide by the total weight, normalize to
unit length, and store the result. -/
noncomputable def update_speaker_embedding (db : SpeakerDB) (speaker_id : Nat)
    (new_embedding : Vec) (new_weight : ℝ) : SpeakerDB × Bool :=
  match db.speakers.find? (fun r => r.speaker_id == speaker_id) with
  | none => (db, false)
  | some row =>
    let old_weight : ℝ := max 1 (row.segment_count : ℝ)
    let total_weight := old_weight + new_weight
    let updated := row.embedding.zipWith
      (fun o n => (old_weight * o + new_weight * n) / total_weight) new_embedding
    let updatedN := normalize updated
    ({ db with
        speakers := db.speakers.map
          (fun r => if r.speaker_id = speaker_id then { r with embedding := updatedN } else r) },
      true)

/-- `SpeakerDatabase.find_similar_speaker` (lines 120-177): `(None, 0.0)`
on an empty table; otherwise scan for the best match; if the best
similarity is strictly greater than the threshold, optionally update the
matched speaker's embedding and return the match, else return
`(None, max_similarity)`.  The returned state carries the side effect of
the optional embedding update. -/
noncomputable def find_similar_speaker (db : SpeakerDB) (q : Vec)
    (similarity_threshold : ℝ) (update_embedding : Bool) (update_weight : ℝ) :
    SpeakerDB × Option Nat × ℝ :=
  match db.speakers with
  | [] => (db, none, 0)
  | _ :: _ =>
    let best := findMostSimilar db q
    if best.2 > similarity_threshold then
      match best.1, update_embedding with
      | some sid, true => ((update_speaker_embedding db sid q update_weight).1, best.1, best.2)
      | _, _ => (db, best.1, best.2)
    else (db, none, best.2)

/-- Distinct episode count of a speaker in the `speaker_episodes` table:
`SELECT COUNT(DISTINCT episode_num) ... WHERE speaker_id = ?`. -/
def distinctEpisodeCount (episodes : List EpisodeRow) (speaker_id : Nat) : Nat :=
  (((episodes.filter (fun e => e.speaker_id == speaker_id)).map
    (fun e => e.episode_num)).dedup).length

/-- `SpeakerDatabase.update_speaker_episode` (lines 234-259):
`INSERT OR REPLACE` the `(speaker_id, episode_num)` appearance row, then
recompute the speaker's `episode_count` as the distinct episode count and
add the new `segment_count` to its running total. -/
def update_speaker_episode (db : SpeakerDB) (speaker_id : Nat) (episode_num : Nat)
    (local_label : String) (segment_count : Nat) : SpeakerDB :=
  let app : EpisodeRow :=
    { speaker_id := speaker_id, episode_num := episode_num, local_label := local_label,
      segment_count := segment_count }
  let episodes' := (db.episodes.filter
    (fun e => ¬ (e.speaker_id = speaker_id ∧ e.episode_num = episode_num))) ++ [app]
  { db with
    episodes := episodes',
    speakers := db.speakers.map (fun r =>
      if r.speaker_id = speaker_id then
        { r with episode_count := distinctEpisodeCount episodes' speaker_id,
                 segment_count := r.segment_count + segment_count }
      else r) }

/-- The body of the per-speaker loop of
`assign_global_speaker_ids_by_embedding`
(`speaker_level_segmentation.py`, lines 240-259), which is the store's
match-or-register operation: look for a similar speaker (optionally
updating the matched embedding); on a match record the episode
appearance, otherwise register a brand-new speaker.  Returns the new
store state and the global id assigned to this local speaker. -/
noncomputable def matchOrRegister (db : SpeakerDB) (embedding : Vec)
    (episode_num : Nat) (local_label : String) (segment_count : Nat)
    (similarity_threshold : ℝ) (update_embeddings : Bool) (update_weight : ℝ) :
    SpeakerDB × Nat :=
  let fs := find_similar_speaker db embedding similarity_threshold
    update_embeddings update_weight
  match fs.2.1 with
  | some sid => (update_speaker_episode fs.1 sid episode_num local_label segment_count, sid)
  | none => add_speaker fs.1 embedding episode_num local_label segment_count

/-- One detector turn of the diarization result, as yielded by
`diarization.itertracks(yield_label=True)`: a pyannote `Segment` plus its
local speaker label.  The list order is the iteration order. -/
structure Turn where
  label : String
  start : ℚ
  stop : ℚ

/-- Duration of `Segment(s, e) & turn` in
`get_dominant_speaker_in_range`: the intersection is
`Segment(max(starts), min(ends))` and its duration is `end - start`;
pyannote's `if overlap:` then tests that this is positive. -/
def overlapDuration (s e : ℚ) (t : Turn) : ℚ := min e t.stop - max s t.start

/-- `speaker_durations[speaker] += duration` with Python-dict semantics:
update the existing entry in place, or append a fresh key at the end
(insertion order). -/
def addDuration : List (String × ℚ) → String → ℚ → List (String × ℚ)
  | [], lab, d => [(lab, d)]
  | (l, d0) :: rest, lab, d =>
      if l = lab then (l, d0 + d) :: rest
      else (l, d0) :: addDuration rest lab d

/-- The accumulation loop of `get_dominant_speaker_in_range`
(`speaker_level_segmentation.py`, lines 314-323): for every turn whose
overlap with the window is positive, add the overlap duration to that
label's tally. -/
def speakerDurations (s e : ℚ) : List Turn → List (String × ℚ) → List (String × ℚ)
  | [], acc => acc
  | t :: ts, acc =>
      if 0 < overlapDuration s e t then
        speakerDurations s e ts (addDuration acc t.label (overlapDuration s e t))
      else speakerDurations s e ts acc

/-- Python's `max(items, key=lambda x: x[1])`: scan left to right, replace
the incumbent only on a strictly larger key, so the first maximal element
wins ties. -/
def pickMax (x : String × ℚ) (xs : List (String × ℚ)) : String × ℚ :=
  xs.foldl (fun best p => if p.2 > best.2 then p else best) x

/-- `get_dominant_speaker_in_range` (lines 310-328): accumulate positive
overlap durations per label, return `None` if nothing overlaps, else the
label with the largest accumulated duration (first encountered on ties). -/
def get_dominant_speaker_in_range (turns : List Turn) (s e : ℚ) : Option String :=
  match speakerDurations s e turns [] with
  | [] => none
  | x :: xs => some (pickMax x xs).1

/-- Python-dict assignment `m[lab] = v`: overwrite in place or append. -/
def setKey : List (String × Nat) → String → Nat → List (String × Nat)
  | [], lab, v => [(lab, v)]
  | (l, v0) :: rest, lab, v =>
      if l = lab then (l, v) :: rest
      else (l, v0) :: setKey rest lab v

/-- `generate_final_segments_with_subtitles` (lines 269-307): for each
subtitle line, the segment starts at the line's timestamp and ends at the
next line's timestamp (for the last line, at `start + min(10.0,
max_duration)`), clamped to `start + max_duration`; lines whose duration
falls outside `[min_duration, max_duration]` are dropped, as are lines
with no dominant speaker (including Python's falsy empty label) or whose
dominant speaker has no entry in the local→global map. -/
def generate_final_segments_with_subtitles (subtitles : List (ℚ × String))
    (turns : List Turn) (localToGlobal : List (String × Nat))
    (min_duration max_duration : ℚ) : List (ℚ × ℚ × Nat) :=
  match subtitles with
  | [] => []
  | (start_time, _) :: rest =>
    let end0 : ℚ :=
      match rest with
      | (next_time, _) :: _ => next_time
      | [] => start_time + min 10 max_duration
    let end_time := min end0 (start_time + max_duration)
    let duration := end_time - start_time
    let here : List (ℚ × ℚ × Nat) :=
      if duration < min_duration ∨ duration > max_duration then []
      else
        match get_dominant_speaker_in_range turns start_time end_time with
        | none => []
        | some lab =>
          if lab = "" then []
          else
            match localToGlobal.lookup lab with
            | some gid => [(start_time, end_time, gid)]
            | none => []
    here ++ generate_final_segments_with_subtitles rest turns localToGlobal
      min_duration max_duration

/-- The per-speaker loop of `assign_global_speaker_ids_by_embedding`
(lines 233-263), threading the store state and the growing
`local_to_global_map`.  `crash lab = true` models the `try` body raising
for that local speaker before any store write commits (e.g. the store
being unavailable); the `except` clause logs and `continue`s. -/
noncomputable def assignLoop (crash : String → Bool) (episode_num : Nat)
    (similarity_threshold : ℝ) (update_embeddings : Bool) (update_weight : ℝ) :
    List (String × Vec × Nat) → SpeakerDB → List (String × Nat) →
      SpeakerDB × List (String × Nat)
  | [], db, m => (db, m)
  | (lab, emb, segc) :: rest, db, m =>
      if crash lab then
        assignLoop crash episode_num similarity_threshold update_embeddings
          update_weight rest db m
      else
        let r := matchOrRegister db emb episode_num lab segc similarity_threshold
          update_embeddings update_weight
        assignLoop crash episode_num similarity_threshold update_embeddings
          update_weight rest r.1 (setKey m lab r.2)

/-- `assign_global_speaker_ids_by_embedding`
(`speaker_level_segmentation.py`, lines 218-266): resolve each
consolidated local speaker (label, embedding, segment count) against the
store in turn, starting from an empty map.  The environment-variable
driven `update_embeddings` / `update_weight` pair is passed explicitly. -/
noncomputable def assign_global_speaker_ids_by_embedding (crash : String → Bool)
    (db : SpeakerDB) (speakers : List (String × Vec × Nat)) (episode_num : Nat)
    (similarity_threshold : ℝ) (update_embeddings : Bool) (update_weight : ℝ) :
    SpeakerDB × List (String × Nat) :=
  assignLoop crash episode_num similarity_threshold update_embeddings update_weight
    speakers db []

/-- How one episode's run ends, for the tail of
`pyannote_speaker_segmentation.py` `main`. -/
inductive Outcome where
  | completed
  | exitedNoSegments
  | fatalEmit

/-- The per-episode pipeline: the speaker-level strategy
(`segment_by_speaker_level_approach`, lines 74-87: resolution then
subtitle-aligned segment generation) composed with the tail of `main`
(`pyannote_speaker_segmentation.py`): `if not valid_segments: sys.exit(0)`
(lines 720-722, before any marking), audio emission (line 724-734, a raise
there propagates, modelled by `emitOk = false`), and only then
`db.mark_episode_processed` (line 738). -/
noncomputable def processEpisode (crash : String → Bool) (emitOk : Bool)
    (db : SpeakerDB) (subtitles : List (ℚ × String)) (turns : List Turn)
    (speakers : List (String × Vec × Nat)) (episode_num : Nat)
    (similarity_threshold : ℝ) (update_embeddings : Bool) (update_weight : ℝ)
    (min_duration max_duration : ℚ) : SpeakerDB × Outcome × List (ℚ × ℚ × Nat) :=
  let r := assign_global_speaker_ids_by_embedding crash db speakers episode_num
    similarity_threshold update_embeddings update_weight
  let segs := generate_final_segments_with_subtitles subtitles turns r.2
    min_duration max_duration
  match segs with
  | [] => (r.1, Outcome.exitedNoSegments, [])
  | _ :: _ =>
    if emitOk then (mark_episode_processed r.1 episode_num, Outcome.completed, segs)
    else (r.1, Outcome.fatalEmit, segs)

theorem update_speaker_embedding_speakers_length (db : SpeakerDB) (sid : Nat)
    (q : Vec) (w : ℝ) :
    (update_speaker_embedding db sid q w).1.speakers.length = db.speakers.length := by
  unfold update_speaker_embedding
  cases db.speakers.find? (fun r => r.speaker_id == sid) <;> simp

theorem update_speaker_episode_speakers_length (db : SpeakerDB) (sid ep : Nat)
    (lab : String) (sc : Nat) :
    (update_speaker_episode db sid ep lab sc).speakers.length = db.speakers.length := by
  unfold update_speaker_episode
  simp

theorem add_speaker_id (db : SpeakerDB) (v : Vec) (ep : Nat) (lab : String) (sc : Nat) :
    (add_speaker db v ep lab sc).2 = db.nextId := rfl

theorem add_speaker_speakers (db : SpeakerDB) (v : Vec) (ep : Nat) (lab : String)
    (sc : Nat) :
    (add_speaker db v ep lab sc).1.speakers =
      db.speakers ++ [⟨db.nextId, v, v.length, 1, sc⟩] := rfl

theorem add_speaker_nextId (db : SpeakerDB) (v : Vec) (ep : Nat) (lab : String)
    (sc : Nat) :
    (add_speaker db v ep lab sc).1.nextId = db.nextId + 1 := rfl

theorem add_speaker_episodes (db : SpeakerDB) (v : Vec) (ep : Nat) (lab : String)
    (sc : Nat) :
    (add_speaker db v ep lab sc).1.episodes =
      db.episodes ++ [⟨db.nextId, ep, lab, sc⟩] := rfl

theorem add_speaker_processed (db : SpeakerDB) (v : Vec) (ep : Nat) (lab : String)
    (sc : Nat) :
    (add_speaker db v ep lab sc).1.processed = db.processed := rfl

theorem findMostSimilar_nil (db : SpeakerDB) (q : Vec) (h : db.speakers = []) :
    findMostSimilar db q = (none, 0) := by
  unfold findMostSimilar
  rw [h]

theorem findMostSimilar_cons (db : SpeakerDB) (q : Vec) (a : SpeakerRow)
    (l : List SpeakerRow) (h : db.speakers = a :: l) :
    findMostSimilar db q = (a :: l).foldl (bestMatchStep q) (none, 0) := by
  unfold findMostSimilar
  rw [h]

theorem find_similar_speaker_nil (db : SpeakerDB) (q : Vec) (τ : ℝ) (u : Bool)
    (w : ℝ) (h : db.speakers = []) :
    find_similar_speaker db q τ u w = (db, none, 0) := by
  unfold find_similar_speaker
  rw [h]

theorem find_similar_speaker_cons (db : SpeakerDB) (q : Vec) (τ : ℝ) (u : Bool)
    (w : ℝ) (a : SpeakerRow) (l : List SpeakerRow) (h : db.speakers = a :: l) :
    find_similar_speaker db q τ u w =
      (if (findMostSimilar db q).2 > τ then
        match (findMostSimilar db q).1, u with
        | some sid, true =>
            ((update_speaker_embedding db sid q w).1, (findMostSimilar db q).1,
              (findMostSimilar db q).2)
        | _, _ => (db, (findMostSimilar db q).1, (findMostSimilar db q).2)
      else (db, none, (findMostSimilar db q).2)) := by
  unfold find_similar_speaker
  rw [h]

theorem matchOrRegister_eq (db : SpeakerDB) (q : Vec) (ep : Nat) (lab : String)
    (sc : Nat) (τ : ℝ) (u : Bool) (w : ℝ) :
    matchOrRegister db q ep lab sc τ u w =
      (match (find_similar_speaker db q τ u w).2.1 with
      | some sid =>
          (update_speaker_episode (find_similar_speaker db q τ u w).1 sid ep lab sc, sid)
      | none => add_speaker (find_similar_speaker db q τ u w).1 q ep lab sc) := rfl

theorem find_similar_speaker_speakers_length (db : SpeakerDB) (q : Vec) (τ : ℝ)
    (u : Bool) (w : ℝ) :
    (find_similar_speaker db q τ u w).1.speakers.length = db.speakers.length := by
  cases hsp : db.speakers with
  | nil => rw [find_similar_speaker_nil db q τ u w hsp, hsp]
  | cons a l =>
      rw [find_similar_speaker_cons db q τ u w a l hsp]
      split
      · rcases (findMostSimilar db q).1 with _ | sid <;> cases u <;> dsimp only
        any_goals rw [hsp]
        all_goals rw [update_speaker_embedding_speakers_length, hsp]
      · rw [hsp]

theorem find_similar_speaker_some (db : SpeakerDB) (q : Vec) (τ : ℝ)
    (u : Bool) (w : ℝ) (sid : Nat)
    (h : (find_similar_speaker db q τ u w).2.1 = some sid) :
    (findMostSimilar db q).1 = some sid ∧ (findMostSimilar db q).2 > τ := by
  cases hsp : db.speakers with
  | nil =>
      rw [find_similar_speaker_nil db q τ u w hsp] at h
      simp at h
  | cons a l =>
      rw [find_similar_speaker_cons db q τ u w a l hsp] at h
      by_cases hgt : (findMostSimilar db q).2 > τ
      · rw [if_pos hgt] at h
        refine ⟨?_, hgt⟩
        rcases hb : (findMostSimilar db q).1 with _ | sid' <;> rw [hb] at h <;> cases u
        all_goals simp_all
      · rw [if_neg hgt] at h
        simp at h

theorem find_similar_speaker_not_above (db : SpeakerDB) (q : Vec) (τ : ℝ)
    (u : Bool) (w : ℝ)
    (h : ¬ ((findMostSimilar db q).2 > τ)) :
    find_similar_speaker db q τ u w = (db, none, (findMostSimilar db q).2) := by
  cases hsp : db.speakers with
  | nil =>
      rw [find_similar_speaker_nil db q τ u w hsp, findMostSimilar_nil db q hsp]
  | cons a l =>
      rw [find_similar_speaker_cons db q τ u w a l hsp, if_neg h]

/-- C1: `MatchOrRegister` treats the best similarity as a match only if it
is strictly greater than `similarity_threshold`; when the best similarity
equals the threshold exactly, no match happens and a brand-new speaker is
registered instead (the fresh store-assigned id is returned and the
`speakers` table grows by one row). -/
theorem matchOrRegister_strict_threshold (db : SpeakerDB) (q : Vec) (ep : Nat)
    (lab : String) (sc : Nat) (τ : ℝ) (u : Bool) (w : ℝ) :
    ((findMostSimilar db q).2 = τ →
        (matchOrRegister db q ep lab sc τ u w).2 = db.nextId ∧
        (matchOrRegister db q ep lab sc τ u w).1.speakers.length =
          db.speakers.length + 1) ∧
    ((matchOrRegister db q ep lab sc τ u w).1.speakers.length = db.speakers.length →
        (findMostSimilar db q).2 > τ) := by
  constructor
  · intro heq
    have hno : ¬ ((findMostSimilar db q).2 > τ) := by rw [heq]; exact lt_irrefl τ
    have hfs := find_similar_speaker_not_above db q τ u w hno
    rw [matchOrRegister_eq, hfs]
    refine ⟨add_speaker_id db q ep lab sc, ?_⟩
    rw [add_speaker_speakers]
    simp
  · intro hlen
    rw [matchOrRegister_eq] at hlen
    rcases hsome : (find_similar_speaker db q τ u w).2.1 with _ | sid
    · exfalso
      rw [hsome] at hlen
      simp only at hlen
      rw [add_speaker_speakers, List.length_append,
        find_similar_speaker_speakers_length db q τ u w] at hlen
      simp at hlen
    · exact (find_similar_speaker_some db q τ u w sid hsome).2

/-- A one-speaker store used to exercise the threshold boundary: speaker 1
holds the unit vector `[0, 1]`, next rowid 2. -/
def dbPerp : SpeakerDB := ⟨[⟨1, [0, 1], 2, 1, 0⟩], 2, [], []⟩

theorem findMostSimilar_dbPerp : findMostSimilar dbPerp [1, 0] = (none, 0) := by
  rw [findMostSimilar_cons dbPerp [1, 0] ⟨1, [0, 1], 2, 1, 0⟩ [] rfl]
  simp [bestMatchStep, cosineSim, dot]

theorem matchOrRegister_strict_threshold_witness :
    (findMostSimilar dbPerp [1, 0]).2 = (0 : ℝ) ∧
      ((matchOrRegister dbPerp [1, 0] 3 "SPEAKER_00" 4 0 false 1).2 = dbPerp.nextId ∧
        (matchOrRegister dbPerp [1, 0] 3 "SPEAKER_00" 4 0 false 1).1.speakers.length =
          dbPerp.speakers.length + 1) := by
  have h : (findMostSimilar dbPerp [1, 0]).2 = (0 : ℝ) := by
    rw [findMostSimilar_dbPerp]
  exact ⟨h, (matchOrRegister_strict_threshold dbPerp [1, 0] 3 "SPEAKER_00" 4 0 false 1).1 h⟩

theorem dot_cons (a b : ℝ) (as bs : Vec) :
    dot (a :: as) (b :: bs) = a * b + dot as bs := rfl

theorem dot_nil : dot [] [] = 0 := rfl

/-- The running maximum that the scan loop of `find_similar_speaker`
maintains: the fold of `max` over the cosine similarities of all stored
rows, started from the loop's initial `max_similarity = 0.0`. -/
noncomputable def maxSimilarity (q : Vec) (rows : List SpeakerRow) : ℝ :=
  rows.foldl (fun m r => max m (cosineSim q r.embedding)) 0

theorem bestMatchStep_snd (q : Vec) (acc : Option Nat × ℝ) (row : SpeakerRow) :
    (bestMatchStep q acc row).2 = max acc.2 (cosineSim q row.embedding) := by
  unfold bestMatchStep
  split
  · rename_i hgt
    exact (max_eq_right (le_of_lt hgt)).symm
  · rename_i hle
    exact (max_eq_left (le_of_not_lt hle)).symm

theorem bestMatch_foldl_snd (q : Vec) (rows : List SpeakerRow) :
    ∀ acc : Option Nat × ℝ,
      (rows.foldl (bestMatchStep q) acc).2 =
        rows.foldl (fun m r => max m (cosineSim q r.embedding)) acc.2 := by
  induction rows with
  | nil => intro acc; rfl
  | cons r rs ih =>
      intro acc
      rw [List.foldl_cons, List.foldl_cons, ih, bestMatchStep_snd]

theorem maxSim_foldl_ge_init (q : Vec) (rows : List SpeakerRow) :
    ∀ c : ℝ, c ≤ rows.foldl (fun m r => max m (cosineSim q r.embedding)) c := by
  induction rows with
  | nil => intro c; exact le_refl c
  | cons r rs ih =>
      intro c
      calc c ≤ max c (cosineSim q r.embedding) := le_max_left _ _
        _ ≤ rs.foldl (fun m r => max m (cosineSim q r.embedding))
            (max c (cosineSim q r.embedding)) := ih _

theorem maxSim_foldl_ge_mem (q : Vec) (rows : List SpeakerRow) :
    ∀ (c : ℝ) (r : SpeakerRow), r ∈ rows →
      cosineSim q r.embedding ≤ rows.foldl (fun m r => max m (cosineSim q r.embedding)) c := by
  induction rows with
  | nil => intro c r hr; cases hr
  | cons a rs ih =>
      intro c r hr
      rcases List.mem_cons.mp hr with h | h
      · subst h
        calc cosineSim q r.embedding ≤ max c (cosineSim q r.embedding) := le_max_right _ _
          _ ≤ _ := maxSim_foldl_ge_init q rs _
      · exact ih _ r h

theorem bestMatch_foldl_cases (q : Vec) (rows : List SpeakerRow) :
    ∀ acc : Option Nat × ℝ,
      rows.foldl (bestMatchStep q) acc = acc ∨
        ∃ row ∈ rows, (rows.foldl (bestMatchStep q) acc).1 = some row.speaker_id ∧
          (rows.foldl (bestMatchStep q) acc).2 = cosineSim q row.embedding := by
  induction rows with
  | nil => intro acc; exact Or.inl rfl
  | cons r rs ih =>
      intro acc
      rw [List.foldl_cons]
      rcases ih (bestMatchStep q acc r) with h | ⟨row, hrow, h1, h2⟩
      · rw [h]
        unfold bestMatchStep
        split
        · exact Or.inr ⟨r, List.mem_cons_self r rs, rfl, rfl⟩
        · exact Or.inl rfl
      · exact Or.inr ⟨row, List.mem_cons_of_mem r hrow, h1, h2⟩

theorem bestMatch_foldl_stays_none (q : Vec) (rows : List SpeakerRow) :
    ∀ c : ℝ, 0 ≤ c → (∀ r ∈ rows, cosineSim q r.embedding ≤ 0) →
      rows.foldl (bestMatchStep q) (none, c) = (none, c) := by
  induction rows with
  | nil => intro c _ _; rfl
  | cons r rs ih =>
      intro c hc hall
      rw [List.foldl_cons]
      have hr := hall r (List.mem_cons_self r rs)
      have hstep : bestMatchStep q (none, c) r = (none, c) := by
        unfold bestMatchStep
        rw [if_neg]
        simp only [not_lt]
        exact le_trans hr hc
      rw [hstep]
      exact ih c hc (fun r' hr' => hall r' (List.mem_cons_of_mem r hr'))

theorem findMostSimilar_snd (db : SpeakerDB) (q : Vec) :
    (findMostSimilar db q).2 = maxSimilarity q db.speakers := by
  cases hsp : db.speakers with
  | nil => rw [findMostSimilar_nil db q hsp]; rfl
  | cons a l =>
      rw [findMostSimilar_cons db q a l hsp, maxSimilarity, bestMatch_foldl_snd]

theorem findMostSimilar_attains (db : SpeakerDB) (q : Vec) (sid : Nat)
    (hsid : (findMostSimilar db q).1 = some sid) :
    ∃ row ∈ db.speakers, row.speaker_id = sid ∧
      cosineSim q row.embedding = (findMostSimilar db q).2 ∧
      ∀ r ∈ db.speakers, cosineSim q r.embedding ≤ (findMostSimilar db q).2 := by
  cases hsp : db.speakers with
  | nil => rw [findMostSimilar_nil db q hsp] at hsid; cases hsid
  | cons a l =>
      rw [findMostSimilar_cons db q a l hsp] at hsid
      rcases bestMatch_foldl_cases q (a :: l) (none, 0) with h | ⟨row, hrow, h1, h2⟩
      · rw [h] at hsid; cases hsid
      · rw [h1] at hsid
        refine ⟨row, hsp ▸ hrow, Option.some.inj hsid, ?_, ?_⟩
        · rw [findMostSimilar_cons db q a l hsp, h2]
        · intro r hr
          rw [findMostSimilar_cons db q a l hsp, bestMatch_foldl_snd]
          exact maxSim_foldl_ge_mem q (a :: l) 0 r (hsp ▸ hr)

/-- C5 (amended): on an empty store `FindMostSimilar` returns
`(none, 0.0)`; otherwise the returned similarity is the maximum of `0.0`
and all stored cosine similarities (so a negative true best is reported
as `0.0`); when a speaker is returned it is a stored speaker attaining
the returned similarity, and every stored similarity is bounded by it;
no speaker is returned exactly when no stored speaker has strictly
positive similarity. -/
theorem findMostSimilar_characterization (db : SpeakerDB) (q : Vec) :
    (db.speakers = [] → findMostSimilar db q = (none, 0)) ∧
    (findMostSimilar db q).2 = maxSimilarity q db.speakers ∧
    (∀ sid, (findMostSimilar db q).1 = some sid →
      ∃ row ∈ db.speakers, row.speaker_id = sid ∧
        cosineSim q row.embedding = (findMostSimilar db q).2 ∧
        ∀ r ∈ db.speakers, cosineSim q r.embedding ≤ (findMostSimilar db q).2) ∧
    ((findMostSimilar db q).1 = none ↔ ∀ r ∈ db.speakers, cosineSim q r.embedding ≤ 0) := by
  refine ⟨findMostSimilar_nil db q, findMostSimilar_snd db q,
    fun sid hsid => findMostSimilar_attains db q sid hsid, ?_⟩
  · constructor
    · intro hnone r hr
      cases hsp : db.speakers with
      | nil => rw [hsp] at hr; cases hr
      | cons a l =>
          rw [findMostSimilar_cons db q a l hsp] at hnone
          rcases bestMatch_foldl_cases q (a :: l) (none, 0) with h | ⟨row, hrow, h1, h2⟩
          · by_contra hpos
            push_neg at hpos
            have hle := maxSim_foldl_ge_mem q (a :: l) 0 r (hsp ▸ hr)
            have hsnd := bestMatch_foldl_snd q (a :: l) (none, 0)
            rw [h] at hsnd
            dsimp only at hsnd
            rw [← hsnd] at hle
            exact absurd (lt_of_lt_of_le hpos hle) (lt_irrefl 0)
          · rw [h1] at hnone; cases hnone
    · intro hall
      cases hsp : db.speakers with
      | nil => rw [findMostSimilar_nil db q hsp]
      | cons a l =>
          rw [findMostSimilar_cons db q a l hsp,
            bestMatch_foldl_stays_none q (a :: l) 0 (le_refl 0)
              (fun r hr => hall r (hsp ▸ hr))]

/-- A one-speaker store whose only signature points opposite to the query
`[1, 0]`: the true best cosine similarity is `-1`, attained by speaker 1. -/
def dbNeg : SpeakerDB := ⟨[⟨1, [-1, 0], 2, 1, 0⟩], 2, [], []⟩

theorem cosineSim_opposite : cosineSim [1, 0] [-1, 0] = -1 := by
  have hdot : dot [1, 0] [-1, 0] = -1 := by
    rw [dot_cons, dot_cons, dot_nil]; norm_num
  have hs1 : dot [(1 : ℝ), 0] [1, 0] = 1 := by
    rw [dot_cons, dot_cons, dot_nil]; norm_num
  have hs2 : dot [(-1 : ℝ), 0] [-1, 0] = 1 := by
    rw [dot_cons, dot_cons, dot_nil]; norm_num
  rw [cosineSim, l2norm, l2norm, hdot, hs1, hs2, Real.sqrt_one]
  norm_num

theorem findMostSimilar_negative_counterexample :
    dbNeg.speakers ≠ [] ∧
      (∀ r ∈ dbNeg.speakers, r.speaker_id = 1 ∧ cosineSim [1, 0] r.embedding = -1) ∧
      findMostSimilar dbNeg [1, 0] = (none, 0) ∧
      ((none : Option Nat), (0 : ℝ)) ≠ ((some 1 : Option Nat), (-1 : ℝ)) := by
  refine ⟨by simp [dbNeg], ?_, ?_, by simp⟩
  · intro r hr
    have : r = ⟨1, [-1, 0], 2, 1, 0⟩ := by simpa [dbNeg] using hr
    subst this
    exact ⟨rfl, cosineSim_opposite⟩
  · rw [findMostSimilar_cons dbNeg [1, 0] ⟨1, [-1, 0], 2, 1, 0⟩ [] rfl]
    simp only [List.foldl_cons, List.foldl_nil]
    unfold bestMatchStep
    rw [if_neg]
    show ¬ cosineSim [1, 0] [-1, 0] > 0
    rw [cosineSim_opposite]
    norm_num

theorem findMostSimilar_characterization_witness :
    (findMostSimilar dbPerp [1, 0]).1 = none ∧
      (∀ r ∈ dbPerp.speakers, cosineSim [1, 0] r.embedding ≤ 0) := by
  have h := (findMostSimilar_characterization dbPerp [1, 0]).2.2.2
  have hnone : (findMostSimilar dbPerp [1, 0]).1 = none := by
    rw [findMostSimilar_dbPerp]
  exact ⟨hnone, h.mp hnone⟩

/-- Scalar multiple of a vector, for stating the spec's
`w_old·old + w_new·new`. -/
def smulVec (c : ℝ) (v : Vec) : Vec := v.map (fun x => c * x)

/-- Elementwise vector sum, for stating the spec's
`w_old·old + w_new·new`. -/
def addVec : Vec → Vec → Vec := List.zipWith (fun a b => a + b)

theorem dot_self_nonneg (v : Vec) : 0 ≤ dot v v := by
  induction v with
  | nil => exact le_refl 0
  | cons x xs ih =>
      rw [dot_cons]
      exact add_nonneg (mul_self_nonneg x) ih

theorem dot_comm (u : Vec) : ∀ v : Vec, dot u v = dot v u := by
  induction u with
  | nil => intro v; cases v <;> rfl
  | cons x xs ih =>
      intro v
      cases v with
      | nil => rfl
      | cons y ys => rw [dot_cons, dot_cons, ih, mul_comm]

theorem dot_eq_zero_of_self_zero (v : Vec) (h : dot v v = 0) :
    ∀ u : Vec, dot u v = 0 := by
  induction v with
  | nil => intro u; cases u <;> rfl
  | cons x xs ih =>
      rw [dot_cons] at h
      have hx : x * x = 0 :=
        le_antisymm (by nlinarith [dot_self_nonneg xs]) (mul_self_nonneg x)
      have hxs : dot xs xs = 0 := by nlinarith [mul_self_nonneg x]
      intro u
      cases u with
      | nil => rfl
      | cons y ys =>
          rw [dot_cons, ih hxs ys]
          have : x = 0 := by nlinarith
          rw [this]
          ring

theorem dot_map_div_self (v : Vec) (c : ℝ) :
    dot (v.map (fun x => x / c)) (v.map (fun x => x / c)) = dot v v / (c * c) := by
  induction v with
  | nil => simp [dot]
  | cons x xs ih =>
      simp only [List.map_cons, dot_cons, ih]
      rw [div_mul_div_comm, div_add_div_same]

theorem l2norm_mul_self (v : Vec) : l2norm v * l2norm v = dot v v :=
  Real.mul_self_sqrt (dot_self_nonneg v)

theorem l2norm_normalize (v : Vec) (h : dot v v ≠ 0) :
    l2norm (normalize v) = 1 := by
  unfold normalize l2norm
  rw [dot_map_div_self, Real.mul_self_sqrt (dot_self_nonneg v), div_self h,
    Real.sqrt_one]

theorem dot_map_div_right (t : ℝ) (o : Vec) :
    ∀ s : Vec, dot o (s.map (fun x => x / t)) = dot o s / t := by
  induction o with
  | nil =>
      intro s
      cases s <;> simp [dot]
  | cons x xs ih =>
      intro s
      cases s with
      | nil => simp [dot]
      | cons y ys =>
          simp only [List.map_cons, dot_cons, ih]
          rw [← mul_div_assoc, div_add_div_same]

theorem dot_zipWith_blend (a b : ℝ) (o : Vec) :
    ∀ n : Vec, o.length = n.length →
      dot o (o.zipWith (fun x y => a * x + b * y) n) =
        a * dot o o + b * dot o n := by
  induction o with
  | nil =>
      intro n _
      simp [dot]
  | cons x xs ih =>
      intro n hlen
      cases n with
      | nil => cases hlen
      | cons y ys =>
          simp only [List.zipWith_cons_cons, dot_cons]
          rw [ih ys (by simpa using hlen)]
          ring

theorem zipWith_blend_as_map (a b t : ℝ) (o : Vec) :
    ∀ n : Vec,
      o.zipWith (fun x y => (a * x + b * y) / t) n =
        (o.zipWith (fun x y => a * x + b * y) n).map (fun x => x / t) := by
  induction o with
  | nil => intro n; simp
  | cons x xs ih =>
      intro n
      cases n with
      | nil => simp
      | cons y ys => simp only [List.zipWith_cons_cons, List.map_cons, ih]

theorem addVec_smul_as_zipWith (a b : ℝ) (o : Vec) :
    ∀ n : Vec,
      addVec (smulVec a o) (smulVec b n) =
        o.zipWith (fun x y => a * x + b * y) n := by
  induction o with
  | nil => intro n; simp [addVec, smulVec]
  | cons x xs ih =>
      intro n
      cases n with
      | nil => simp [addVec, smulVec]
      | cons y ys =>
          simp only [addVec, smulVec, List.map_cons, List.zipWith_cons_cons] at ih ⊢
          rw [ih]

theorem l2norm_map_div (s : Vec) (t : ℝ) (ht : 0 < t) :
    l2norm (s.map (fun x => x / t)) = l2norm s / t := by
  unfold l2norm
  rw [dot_map_div_self, Real.sqrt_div (dot_self_nonneg s),
    Real.sqrt_mul_self ht.le]

theorem normalize_map_div (s : Vec) (t : ℝ) (ht : 0 < t) :
    normalize (s.map (fun x => x / t)) = normalize s := by
  unfold normalize
  rw [l2norm_map_div s t ht, List.map_map]
  apply List.map_congr_left
  intro x _
  simp only [Function.comp_apply]
  by_cases hn : l2norm s = 0
  · rw [hn]
    simp
  · field_simp

/-- The `updated_embedding` local of `update_speaker_embedding`
(lines 207-215): the weighted average of the stored embedding and the new
one, with `old_weight = max(1.0, segment_count)` and the caller-supplied
`new_weight`. -/
noncomputable def blendedEmbedding (row : SpeakerRow) (q : Vec) (w : ℝ) : Vec :=
  row.embedding.zipWith
    (fun o n => (max 1 (row.segment_count : ℝ) * o + w * n) /
      (max 1 (row.segment_count : ℝ) + w)) q

theorem update_speaker_embedding_none (db : SpeakerDB) (sid : Nat) (q : Vec) (w : ℝ)
    (h : db.speakers.find? (fun r => r.speaker_id == sid) = none) :
    update_speaker_embedding db sid q w = (db, false) := by
  unfold update_speaker_embedding
  rw [h]

theorem update_speaker_embedding_some (db : SpeakerDB) (sid : Nat) (q : Vec) (w : ℝ)
    (row : SpeakerRow)
    (h : db.speakers.find? (fun r => r.speaker_id == sid) = some row) :
    update_speaker_embedding db sid q w =
      ({ db with
          speakers := db.speakers.map (fun r =>
            if r.speaker_id = sid then
              { r with embedding := normalize (blendedEmbedding row q w) }
            else r) }, true) := by
  unfold update_speaker_embedding blendedEmbedding
  rw [h]

theorem add_speaker_stores_raw_counterexample :
    ((add_speaker initDB [2, 0] 1 "SPEAKER_00" 3).1.speakers.map
        (fun r => r.embedding)) = [[2, 0]] ∧
      l2norm [2, 0] = 2 ∧ (2 : ℝ) ≠ 1 := by
  refine ⟨rfl, ?_, by norm_num⟩
  unfold l2norm
  rw [dot_cons, dot_cons, dot_nil]
  rw [show ((2 : ℝ) * 2 + (0 * 0 + 0)) = 2 ^ 2 by norm_num]
  exact Real.sqrt_sq (by norm_num)

/-- C2 (amended): `update_speaker_embedding` does store a unit-norm vector
(whenever the weighted average is nonzero), but `add_speaker` persists the
raw embedding exactly as given, without normalization, and records the
input's own size as the stored dimension — so neither unit norm nor a
single store-wide dimension is enforced at registration time. -/
theorem signature_storage_normalization (db : SpeakerDB) (v : Vec) (ep : Nat)
    (lab : String) (sc : Nat) (sid : Nat) (q : Vec) (w : ℝ) (row : SpeakerRow)
    (hrow : db.speakers.find? (fun r => r.speaker_id == sid) = some row)
    (hblend : dot (blendedEmbedding row q w) (blendedEmbedding row q w) ≠ 0) :
    (add_speaker db v ep lab sc).1.speakers =
        db.speakers ++ [⟨db.nextId, v, v.length, 1, sc⟩] ∧
      ∀ r ∈ (update_speaker_embedding db sid q w).1.speakers,
        r.speaker_id = sid → l2norm r.embedding = 1 := by
  refine ⟨add_speaker_speakers db v ep lab sc, ?_⟩
  intro r hr hid
  rw [update_speaker_embedding_some db sid q w row hrow] at hr
  simp only [List.mem_map] at hr
  obtain ⟨r0, _, hr0⟩ := hr
  by_cases h0 : r0.speaker_id = sid
  · rw [if_pos h0] at hr0
    rw [← hr0]
    exact l2norm_normalize _ hblend
  · rw [if_neg h0] at hr0
    rw [← hr0] at hid
    exact absurd hid h0

/-- A one-speaker store holding the unit vector `[1, 0]` for speaker 1
with `segment_count = 0`, used to exercise the update path. -/
def dbUnit : SpeakerDB := ⟨[⟨1, [1, 0], 2, 1, 0⟩], 2, [], []⟩

theorem dbUnit_find :
    dbUnit.speakers.find? (fun r => r.speaker_id == 1) =
      some ⟨1, [1, 0], 2, 1, 0⟩ := rfl

theorem dbUnit_blend :
    blendedEmbedding ⟨1, [1, 0], 2, 1, 0⟩ [1, 0] 1 = [1, 0] := by
  unfold blendedEmbedding
  simp only [List.zipWith_cons_cons, List.zipWith_nil_right]
  norm_num

theorem signature_storage_normalization_witness :
    dbUnit.speakers.find? (fun r => r.speaker_id == 1) =
        some ⟨1, [1, 0], 2, 1, 0⟩ ∧
      dot (blendedEmbedding ⟨1, [1, 0], 2, 1, 0⟩ [1, 0] 1)
          (blendedEmbedding ⟨1, [1, 0], 2, 1, 0⟩ [1, 0] 1) ≠ 0 ∧
      ((add_speaker dbUnit [3, 4] 2 "SPEAKER_01" 5).1.speakers =
          dbUnit.speakers ++ [⟨dbUnit.nextId, [3, 4], ([3, 4] : Vec).length, 1, 5⟩] ∧
        ∀ r ∈ (update_speaker_embedding dbUnit 1 [1, 0] 1).1.speakers,
          r.speaker_id = 1 → l2norm r.embedding = 1) := by
  have hblend : dot (blendedEmbedding ⟨1, [1, 0], 2, 1, 0⟩ [1, 0] 1)
      (blendedEmbedding ⟨1, [1, 0], 2, 1, 0⟩ [1, 0] 1) ≠ 0 := by
    rw [dbUnit_blend, dot_cons, dot_cons, dot_nil]
    norm_num
  exact ⟨dbUnit_find, hblend,
    signature_storage_normalization dbUnit [3, 4] 2 "SPEAKER_01" 5 1 [1, 0] 1
      ⟨1, [1, 0], 2, 1, 0⟩ dbUnit_find hblend⟩

theorem bestMatch_foldl_none_lt (q : Vec) (rows : List SpeakerRow) :
    ∀ (acc : Option Nat × ℝ) (sid : Nat), acc.1 = none →
      (rows.foldl (bestMatchStep q) acc).1 = some sid →
      acc.2 < (rows.foldl (bestMatchStep q) acc).2 := by
  induction rows with
  | nil =>
      intro acc sid hacc hres
      rw [List.foldl_nil, hacc] at hres
      cases hres
  | cons r rs ih =>
      intro acc sid hacc hres
      rw [List.foldl_cons] at hres ⊢
      by_cases hgt : cosineSim q r.embedding > acc.2
      · have hstep : bestMatchStep q acc r =
            (some r.speaker_id, cosineSim q r.embedding) := by
          unfold bestMatchStep; rw [if_pos hgt]
        rw [hstep] at hres ⊢
        have hge : cosineSim q r.embedding ≤
            (rs.foldl (bestMatchStep q) (some r.speaker_id, cosineSim q r.embedding)).2 := by
          rw [bestMatch_foldl_snd]
          exact maxSim_foldl_ge_init q rs _
        exact lt_of_lt_of_le hgt hge
      · have hstep : bestMatchStep q acc r = acc := by
          unfold bestMatchStep; rw [if_neg hgt]
        rw [hstep] at hres ⊢
        exact ih acc sid hacc hres

theorem findMostSimilar_some_pos (db : SpeakerDB) (q : Vec) (sid : Nat)
    (h : (findMostSimilar db q).1 = some sid) :
    0 < (findMostSimilar db q).2 := by
  cases hsp : db.speakers with
  | nil => rw [findMostSimilar_nil db q hsp] at h; cases h
  | cons a l =>
      rw [findMostSimilar_cons db q a l hsp] at h ⊢
      exact bestMatch_foldl_none_lt q (a :: l) (none, 0) sid rfl h

theorem dot_pos_of_cosineSim_pos (q v : Vec) (h : 0 < cosineSim q v) :
    0 < dot q v := by
  by_contra hle
  push_neg at hle
  have hD : 0 ≤ l2norm q * l2norm v :=
    mul_nonneg (Real.sqrt_nonneg _) (Real.sqrt_nonneg _)
  have hcs : cosineSim q v ≤ 0 :=
    div_nonpos_iff.mpr (Or.inr ⟨hle, hD⟩)
  exact absurd h (not_lt.mpr hcs)

theorem nodup_id_unique (l : List SpeakerRow)
    (hnd : (l.map (fun r => r.speaker_id)).Nodup) :
    ∀ x ∈ l, ∀ y ∈ l, x.speaker_id = y.speaker_id → x = y := by
  induction l with
  | nil => intro x hx; cases hx
  | cons a t ih =>
      rw [List.map_cons, List.nodup_cons] at hnd
      intro x hx y hy hxy
      rcases List.mem_cons.mp hx with rfl | hx' <;>
        rcases List.mem_cons.mp hy with rfl | hy'
      · rfl
      · exact absurd (hxy ▸ List.mem_map_of_mem (fun r => r.speaker_id) hy') hnd.1
      · exact absurd (hxy ▸ List.mem_map_of_mem (fun r => r.speaker_id) hx') hnd.1
      · exact ih hnd.2 x hx' y hy' hxy

theorem find?_id_spec (l : List SpeakerRow) (sid : Nat) (row : SpeakerRow)
    (h : l.find? (fun r => r.speaker_id == sid) = some row) :
    row ∈ l ∧ row.speaker_id = sid := by
  refine ⟨List.mem_of_find?_eq_some h, ?_⟩
  have hbeq := List.find?_some h
  exact Nat.eq_of_beq_eq_true (by simpa using hbeq)

theorem update_speaker_episode_embedding (db : SpeakerDB) (sid ep : Nat)
    (lab : String) (sc : Nat) :
    ∀ r ∈ (update_speaker_episode db sid ep lab sc).speakers,
      ∃ r0 ∈ db.speakers, r.embedding = r0.embedding ∧ r.speaker_id = r0.speaker_id := by
  intro r hr
  unfold update_speaker_episode at hr
  simp only [List.mem_map] at hr
  obtain ⟨r0, hr0, hmap⟩ := hr
  refine ⟨r0, hr0, ?_, ?_⟩ <;> (rw [← hmap]; split <;> rfl)

theorem matchOrRegister_match_update (db : SpeakerDB) (q : Vec) (ep : Nat)
    (lab : String) (sc : Nat) (τ : ℝ) (w : ℝ) (sid : Nat)
    (h1 : (findMostSimilar db q).1 = some sid)
    (h2 : (findMostSimilar db q).2 > τ) :
    matchOrRegister db q ep lab sc τ true w =
      (update_speaker_episode (update_speaker_embedding db sid q w).1 sid ep lab sc,
        sid) := by
  cases hsp : db.speakers with
  | nil => rw [findMostSimilar_nil db q hsp] at h1; cases h1
  | cons a l =>
      have hfss : find_similar_speaker db q τ true w =
          ((update_speaker_embedding db sid q w).1, some sid, (findMostSimilar db q).2) := by
        rw [find_similar_speaker_cons db q τ true w a l hsp, if_pos h2, h1]
      rw [matchOrRegister_eq, hfss]

/-- C4: when `MatchOrRegister` matches speaker `sid` with embedding
updating enabled, every stored row for `sid` afterwards carries
`normalize(w_old · old + w_new · new)` with
`w_old = max(1, old.segment_count)` and the caller-supplied `w_new ≥ 0`,
and that stored signature has unit L2 norm. -/
theorem matchOrRegister_update_blend (db : SpeakerDB) (q : Vec) (ep : Nat)
    (lab : String) (sc : Nat) (τ : ℝ) (w : ℝ) (sid : Nat) (row : SpeakerRow)
    (hnd : (db.speakers.map (fun r => r.speaker_id)).Nodup)
    (h1 : (findMostSimilar db q).1 = some sid)
    (h2 : (findMostSimilar db q).2 > τ)
    (hrow : db.speakers.find? (fun r => r.speaker_id == sid) = some row)
    (hlen : row.embedding.length = q.length)
    (hw : 0 ≤ w) :
    ∀ r ∈ (matchOrRegister db q ep lab sc τ true w).1.speakers,
      r.speaker_id = sid →
        r.embedding =
          normalize (addVec (smulVec (max 1 (row.segment_count : ℝ)) row.embedding)
            (smulVec w q)) ∧
          l2norm r.embedding = 1 := by
  -- Abbreviations for the weights and blended vector.
  set a : ℝ := max 1 (row.segment_count : ℝ) with ha
  have ha1 : (1 : ℝ) ≤ a := le_max_left _ _
  have hapos : 0 < a := lt_of_lt_of_le one_pos ha1
  have htpos : 0 < a + w := by linarith
  -- The matched row is the row attaining the (positive) best similarity.
  have hpos : 0 < (findMostSimilar db q).2 := findMostSimilar_some_pos db q sid h1
  obtain ⟨row', hrow'mem, hrow'id, hrow'sim, _⟩ :=
    findMostSimilar_attains db q sid h1
  obtain ⟨hrowmem, hrowid⟩ := find?_id_spec db.speakers sid row hrow
  have hrr : row' = row :=
    nodup_id_unique db.speakers hnd row' hrow'mem row hrowmem (hrow'id.trans hrowid.symm)
  have hcs : 0 < cosineSim q row.embedding := by
    rw [← hrr, hrow'sim]; exact hpos
  have hdotqo : 0 < dot q row.embedding := dot_pos_of_cosineSim_pos q row.embedding hcs
  have hdotoq : 0 < dot row.embedding q := by rw [dot_comm]; exact hdotqo
  have hoo : 0 < dot row.embedding row.embedding := by
    rcases lt_or_eq_of_le (dot_self_nonneg row.embedding) with h | h
    · exact h
    · exact absurd (dot_eq_zero_of_self_zero row.embedding h.symm q)
        (ne_of_gt hdotqo)
  -- The code's blended vector and its positivity against the old embedding.
  have hblendmap : blendedEmbedding row q w =
      (row.embedding.zipWith (fun x y => a * x + w * y) q).map (fun x => x / (a + w)) := by
    unfold blendedEmbedding
    rw [← ha, zipWith_blend_as_map]
  have hdotblend : 0 < dot row.embedding (blendedEmbedding row q w) := by
    rw [hblendmap, dot_map_div_right, dot_zipWith_blend a w row.embedding q hlen]
    apply div_pos _ htpos
    nlinarith
  have hbb : dot (blendedEmbedding row q w) (blendedEmbedding row q w) ≠ 0 := by
    intro h0
    exact absurd (dot_eq_zero_of_self_zero (blendedEmbedding row q w) h0 row.embedding)
      (ne_of_gt hdotblend)
  -- The blended vector normalizes to the spec's expression.
  have hspec : normalize (blendedEmbedding row q w) =
      normalize (addVec (smulVec a row.embedding) (smulVec w q)) := by
    rw [hblendmap, normalize_map_div _ _ htpos, addVec_smul_as_zipWith]
  -- Reduce matchOrRegister to the update path and read off the stored row.
  intro r hr hid
  rw [matchOrRegister_match_update db q ep lab sc τ w sid h1 h2] at hr
  obtain ⟨r1, hr1, hremb, hrid⟩ :=
    update_speaker_episode_embedding (update_speaker_embedding db sid q w).1 sid ep lab sc r hr
  rw [update_speaker_embedding_some db sid q w row hrow] at hr1
  simp only [List.mem_map] at hr1
  obtain ⟨r0, _, hr0⟩ := hr1
  have hr1id : r1.speaker_id = sid := by rw [← hrid]; exact hid
  by_cases h0 : r0.speaker_id = sid
  · rw [if_pos h0] at hr0
    have hremb1 : r.embedding = normalize (blendedEmbedding row q w) := by
      rw [hremb, ← hr0]
    refine ⟨by rw [hremb1, hspec], ?_⟩
    rw [hremb1]
    exact l2norm_normalize _ hbb
  · rw [if_neg h0] at hr0
    rw [← hr0] at hr1id
    exact absurd hr1id h0

theorem cosineSim_e1 : cosineSim [1, 0] [1, 0] = 1 := by
  have hdot : dot [(1 : ℝ), 0] [1, 0] = 1 := by
    rw [dot_cons, dot_cons, dot_nil]; norm_num
  unfold cosineSim l2norm
  rw [hdot, Real.sqrt_one]
  norm_num

theorem findMostSimilar_dbUnit : findMostSimilar dbUnit [1, 0] = (some 1, 1) := by
  rw [findMostSimilar_cons dbUnit [1, 0] ⟨1, [1, 0], 2, 1, 0⟩ [] rfl]
  simp only [List.foldl_cons, List.foldl_nil]
  unfold bestMatchStep
  dsimp only
  rw [cosineSim_e1, if_pos one_pos]

theorem matchOrRegister_update_blend_witness :
    (findMostSimilar dbUnit [1, 0]).1 = some 1 ∧
      (findMostSimilar dbUnit [1, 0]).2 > (1 / 2 : ℝ) ∧
      (∀ r ∈ (matchOrRegister dbUnit [1, 0] 7 "SPEAKER_02" 3 (1 / 2) true 1).1.speakers,
        r.speaker_id = 1 →
          r.embedding =
            normalize (addVec (smulVec (max 1 ((0 : ℕ) : ℝ)) [1, 0]) (smulVec 1 [1, 0])) ∧
            l2norm r.embedding = 1) := by
  have h1 : (findMostSimilar dbUnit [1, 0]).1 = some 1 := by
    rw [findMostSimilar_dbUnit]
  have h2 : (findMostSimilar dbUnit [1, 0]).2 > (1 / 2 : ℝ) := by
    rw [findMostSimilar_dbUnit]; norm_num
  exact ⟨h1, h2,
    matchOrRegister_update_blend dbUnit [1, 0] 7 "SPEAKER_02" 3 (1 / 2) 1 1
      ⟨1, [1, 0], 2, 1, 0⟩ (by simp [dbUnit]) h1 h2 dbUnit_find rfl (by norm_num)⟩

theorem update_speaker_embedding_processed (db : SpeakerDB) (sid : Nat) (q : Vec)
    (w : ℝ) :
    (update_speaker_embedding db sid q w).1.processed = db.processed := by
  rcases h : db.speakers.find? (fun r => r.speaker_id == sid) with _ | row
  · rw [update_speaker_embedding_none db sid q w h]
  · rw [update_speaker_embedding_some db sid q w row h]

theorem update_speaker_episode_processed (db : SpeakerDB) (sid ep : Nat)
    (lab : String) (sc : Nat) :
    (update_speaker_episode db sid ep lab sc).processed = db.processed := rfl

theorem find_similar_speaker_processed (db : SpeakerDB) (q : Vec) (τ : ℝ)
    (u : Bool) (w : ℝ) :
    (find_similar_speaker db q τ u w).1.processed = db.processed := by
  cases hsp : db.speakers with
  | nil => rw [find_similar_speaker_nil db q τ u w hsp]
  | cons a l =>
      rw [find_similar_speaker_cons db q τ u w a l hsp]
      split
      · rcases (findMostSimilar db q).1 with _ | sid <;> cases u <;> dsimp only
        all_goals rw [update_speaker_embedding_processed]
      · rfl

theorem matchOrRegister_processed (db : SpeakerDB) (q : Vec) (ep : Nat)
    (lab : String) (sc : Nat) (τ : ℝ) (u : Bool) (w : ℝ) :
    (matchOrRegister db q ep lab sc τ u w).1.processed = db.processed := by
  rw [matchOrRegister_eq]
  rcases hs : (find_similar_speaker db q τ u w).2.1 with _ | sid
  · dsimp only
    rw [add_speaker_processed, find_similar_speaker_processed]
  · dsimp only
    rw [update_speaker_episode_processed, find_similar_speaker_processed]

theorem assignLoop_processed (crash : String → Bool) (ep : Nat) (τ : ℝ) (u : Bool)
    (w : ℝ) :
    ∀ (l : List (String × Vec × Nat)) (db : SpeakerDB) (m : List (String × Nat)),
      (assignLoop crash ep τ u w l db m).1.processed = db.processed := by
  intro l
  induction l with
  | nil => intro db m; rfl
  | cons s rest ih =>
      intro db m
      obtain ⟨lab, emb, segc⟩ := s
      rw [assignLoop]
      split
      · exact ih db m
      · rw [ih]
        exact matchOrRegister_processed db emb ep lab segc τ u w

theorem assign_processed (crash : String → Bool) (db : SpeakerDB)
    (speakers : List (String × Vec × Nat)) (ep : Nat) (τ : ℝ) (u : Bool) (w : ℝ) :
    (assign_global_speaker_ids_by_embedding crash db speakers ep τ u w).1.processed =
      db.processed := by
  unfold assign_global_speaker_ids_by_embedding
  exact assignLoop_processed crash ep τ u w speakers db []

theorem assignLoop_filter (crash : String → Bool) (ep : Nat) (τ : ℝ) (u : Bool)
    (w : ℝ) :
    ∀ (l : List (String × Vec × Nat)) (db : SpeakerDB) (m : List (String × Nat)),
      assignLoop crash ep τ u w l db m =
        assignLoop (fun _ => false) ep τ u w (l.filter (fun s => ! crash s.1)) db m := by
  intro l
  induction l with
  | nil => intro db m; rfl
  | cons s rest ih =>
      intro db m
      obtain ⟨lab, emb, segc⟩ := s
      rcases hc : crash lab with _ | _
      · rw [assignLoop, List.filter_cons]
        simp only [hc, Bool.not_false, if_true, if_false, cond]
        rw [assignLoop]
        simp only [hc, Bool.false_eq_true, if_false]
        exact ih _ _
      · rw [assignLoop, List.filter_cons]
        simp only [hc, Bool.not_true, if_true]
        exact ih db m

/-- C3 (amended): a failing `MatchOrRegister` call does not abort the
episode's resolution pass — it only skips that local speaker.  Resolving
with a failure oracle equals resolving the crash-free subsequence of local
speakers (so the remaining speakers are still resolved and all their store
writes remain committed), and resolution itself never touches
`ProcessedEpisodes`. -/
theorem assign_crash_skips_only (crash : String → Bool) (db : SpeakerDB)
    (speakers : List (String × Vec × Nat)) (ep : Nat) (τ : ℝ) (u : Bool) (w : ℝ) :
    assign_global_speaker_ids_by_embedding crash db speakers ep τ u w =
        assign_global_speaker_ids_by_embedding (fun _ => false) db
          (speakers.filter (fun s => ! crash s.1)) ep τ u w ∧
      (assign_global_speaker_ids_by_embedding crash db speakers ep τ u w).1.processed =
        db.processed := by
  unfold assign_global_speaker_ids_by_embedding
  exact ⟨assignLoop_filter crash ep τ u w speakers db [],
    assignLoop_processed crash ep τ u w speakers db []⟩

theorem assign_crash_continues_counterexample :
    assign_global_speaker_ids_by_embedding (fun lab => lab == "A") initDB
        [("A", ([1, 0] : Vec), 2), ("B", [0, 1], 3)] 5 (2 / 5) false 1 =
      ((add_speaker initDB [0, 1] 5 "B" 3).1, [("B", 1)]) ∧
      (add_speaker initDB [0, 1] 5 "B" 3).1.speakers.length = 1 ∧
      (add_speaker initDB [0, 1] 5 "B" 3).1.episodes.length = 1 := by
  have hmor : matchOrRegister initDB [0, 1] 5 "B" 3 (2 / 5) false 1 =
      add_speaker initDB [0, 1] 5 "B" 3 := by
    rw [matchOrRegister_eq, find_similar_speaker_nil initDB [0, 1] (2 / 5) false 1 rfl]
  refine ⟨?_, rfl, rfl⟩
  unfold assign_global_speaker_ids_by_embedding
  rw [assignLoop]
  rw [if_pos (by rfl : ((fun lab => lab == "A") "A") = true)]
  rw [assignLoop]
  rw [if_neg (by simp : ¬ ((fun lab => lab == "A") "B") = true)]
  simp only [hmor]
  rw [assignLoop]
  rw [add_speaker_id]
  rfl

theorem mem_insertSorted (a x : Nat) (l : List Nat) :
    a ∈ insertSorted x l ↔ a = x ∨ a ∈ l := by
  induction l with
  | nil => simp [insertSorted]
  | cons y ys ih =>
      by_cases h : x ≤ y
      · simp [insertSorted, h]
      · simp [insertSorted, h, ih]
        tauto

theorem mem_pySort (a : Nat) (l : List Nat) : a ∈ pySort l ↔ a ∈ l := by
  induction l with
  | nil => simp [pySort]
  | cons x xs ih => simp [pySort, mem_insertSorted, ih]

theorem mem_processed_mark (db : SpeakerDB) (n : Nat) :
    n ∈ get_processed_episodes (mark_episode_processed db n) := by
  unfold mark_episode_processed get_processed_episodes
  by_cases h : n ∈ db.processed
  · simp [get_processed_episodes, h]
  · simp [get_processed_episodes, h, mem_pySort]

theorem mark_of_mem (db : SpeakerDB) (n : Nat)
    (h : n ∈ get_processed_episodes db) :
    mark_episode_processed db n = db := by
  unfold mark_episode_processed
  simp [h]

/-- C9: `MarkEpisodeProcessed` is idempotent: the second call leaves the
whole store state (in particular `ProcessedEpisodes`) exactly as after the
first call, and the episode is a member of the processed list after either
call. -/
theorem mark_episode_processed_idempotent (db : SpeakerDB) (n : Nat) :
    mark_episode_processed (mark_episode_processed db n) n = mark_episode_processed db n ∧
      n ∈ get_processed_episodes (mark_episode_processed db n) ∧
      n ∈ get_processed_episodes (mark_episode_processed (mark_episode_processed db n) n) := by
  have hmem := mem_processed_mark db n
  have hidem := mark_of_mem (mark_episode_processed db n) n hmem
  refine ⟨hidem, hmem, ?_⟩
  rw [hidem]
  exact hmem

theorem processEpisode_eq (crash : String → Bool) (emitOk : Bool) (db : SpeakerDB)
    (subtitles : List (ℚ × String)) (turns : List Turn)
    (speakers : List (String × Vec × Nat)) (ep : Nat) (τ : ℝ) (u : Bool) (w : ℝ)
    (minD maxD : ℚ) :
    processEpisode crash emitOk db subtitles turns speakers ep τ u w minD maxD =
      (match generate_final_segments_with_subtitles subtitles turns
          (assign_global_speaker_ids_by_embedding crash db speakers ep τ u w).2
          minD maxD with
      | [] =>
          ((assign_global_speaker_ids_by_embedding crash db speakers ep τ u w).1,
            Outcome.exitedNoSegments, [])
      | _ :: _ =>
          if emitOk then
            (mark_episode_processed
              (assign_global_speaker_ids_by_embedding crash db speakers ep τ u w).1 ep,
              Outcome.completed,
              generate_final_segments_with_subtitles subtitles turns
                (assign_global_speaker_ids_by_embedding crash db speakers ep τ u w).2
                minD maxD)
          else
            ((assign_global_speaker_ids_by_embedding crash db speakers ep τ u w).1,
              Outcome.fatalEmit,
              generate_final_segments_with_subtitles subtitles turns
                (assign_global_speaker_ids_by_embedding crash db speakers ep τ u w).2
                minD maxD)) := rfl

/-- C6: the episode number is added to `ProcessedEpisodes` exactly when
the run completes: resolution done, a non-empty segment list built, and
audio emission finished without raising.  On the empty-segment early exit
and on an emission failure the processed set is untouched, and on
completion the final state is precisely `mark_episode_processed` applied
to the post-resolution store — marking is the last step. -/
theorem processEpisode_marks_only_on_completion (crash : String → Bool)
    (emitOk : Bool) (db : SpeakerDB) (subtitles : List (ℚ × String))
    (turns : List Turn) (speakers : List (String × Vec × Nat)) (ep : Nat)
    (τ : ℝ) (u : Bool) (w : ℝ) (minD maxD : ℚ)
    (h : ep ∉ db.processed) :
    (ep ∈ (processEpisode crash emitOk db subtitles turns speakers ep τ u w
          minD maxD).1.processed ↔
        (processEpisode crash emitOk db subtitles turns speakers ep τ u w
          minD maxD).2.1 = Outcome.completed) ∧
      ((processEpisode crash emitOk db subtitles turns speakers ep τ u w
          minD maxD).2.1 = Outcome.completed →
        (processEpisode crash emitOk db subtitles turns speakers ep τ u w
            minD maxD).1 =
          mark_episode_processed
            (assign_global_speaker_ids_by_embedding crash db speakers ep τ u w).1 ep ∧
        (processEpisode crash emitOk db subtitles turns speakers ep τ u w
            minD maxD).2.2 ≠ []) := by
  have hframe :
      (assign_global_speaker_ids_by_embedding crash db speakers ep τ u w).1.processed =
        db.processed :=
    assign_processed crash db speakers ep τ u w
  rw [processEpisode_eq]
  rcases hsegs : generate_final_segments_with_subtitles subtitles turns
      (assign_global_speaker_ids_by_embedding crash db speakers ep τ u w).2
      minD maxD with _ | ⟨_s, _rest⟩
  · dsimp only
    constructor
    · refine iff_of_false ?_ (by simp)
      rw [hframe]
      exact h
    · intro hc
      cases hc
  · dsimp only
    cases emitOk with
    | true =>
        rw [if_pos rfl]
        constructor
        · exact iff_of_true (mem_processed_mark _ ep) rfl
        · intro _
          exact ⟨rfl, by simp⟩
    | false =>
        rw [if_neg (by simp)]
        constructor
        · refine iff_of_false ?_ (by simp)
          rw [hframe]
          exact h
        · intro hc
          cases hc

/-- C10: when segment building yields no valid segment, the run exits via
the `sys.exit(0)` path — no error outcome, the episode is not marked
processed, and the store state is exactly the post-resolution state, so
every speaker registration and episode appearance committed during
resolution remains in place. -/
theorem processEpisode_empty_segments (crash : String → Bool) (emitOk : Bool)
    (db : SpeakerDB) (subtitles : List (ℚ × String)) (turns : List Turn)
    (speakers : List (String × Vec × Nat)) (ep : Nat) (τ : ℝ) (u : Bool) (w : ℝ)
    (minD maxD : ℚ)
    (h : generate_final_segments_with_subtitles subtitles turns
        (assign_global_speaker_ids_by_embedding crash db speakers ep τ u w).2
        minD maxD = []) :
    processEpisode crash emitOk db subtitles turns speakers ep τ u w minD maxD =
        ((assign_global_speaker_ids_by_embedding crash db speakers ep τ u w).1,
          Outcome.exitedNoSegments, []) ∧
      (processEpisode crash emitOk db subtitles turns speakers ep τ u w
          minD maxD).1.processed = db.processed := by
  have heq : processEpisode crash emitOk db subtitles turns speakers ep τ u w minD maxD =
      ((assign_global_speaker_ids_by_embedding crash db speakers ep τ u w).1,
        Outcome.exitedNoSegments, []) := by
    rw [processEpisode_eq, h]
  refine ⟨heq, ?_⟩
  rw [heq]
  exact assign_processed crash db speakers ep τ u w



theorem processEpisode_marks_only_on_completion_witness :
    (7 : Nat) ∉ initDB.processed ∧
      ((7 ∈ (processEpisode (fun _ => false) true initDB [(0, "x"), (2, "y")]
            [⟨"S", 0, 2⟩] [("S", ([1, 0] : Vec), 1)] 7 (2 / 5) false 1 1
            15).1.processed ↔
          (processEpisode (fun _ => false) true initDB [(0, "x"), (2, "y")]
            [⟨"S", 0, 2⟩] [("S", ([1, 0] : Vec), 1)] 7 (2 / 5) false 1 1
            15).2.1 = Outcome.completed) ∧
        ((processEpisode (fun _ => false) true initDB [(0, "x"), (2, "y")]
            [⟨"S", 0, 2⟩] [("S", ([1, 0] : Vec), 1)] 7 (2 / 5) false 1 1
            15).2.1 = Outcome.completed →
          (processEpisode (fun _ => false) true initDB [(0, "x"), (2, "y")]
              [⟨"S", 0, 2⟩] [("S", ([1, 0] : Vec), 1)] 7 (2 / 5) false 1 1
              15).1 =
            mark_episode_processed
              (assign_global_speaker_ids_by_embedding (fun _ => false) initDB
                [("S", ([1, 0] : Vec), 1)] 7 (2 / 5) false 1).1 7 ∧
          (processEpisode (fun _ => false) true initDB [(0, "x"), (2, "y")]
              [⟨"S", 0, 2⟩] [("S", ([1, 0] : Vec), 1)] 7 (2 / 5) false 1 1
              15).2.2 ≠ [])) := by
  have h : (7 : Nat) ∉ initDB.processed := by simp [initDB]
  exact ⟨h, processEpisode_marks_only_on_completion (fun _ => false) true initDB
    [(0, "x"), (2, "y")] [⟨"S", 0, 2⟩] [("S", ([1, 0] : Vec), 1)] 7 (2 / 5)
    false 1 1 15 h⟩

theorem processEpisode_empty_segments_witness :
    generate_final_segments_with_subtitles [] [⟨"S", 0, 2⟩]
        (assign_global_speaker_ids_by_embedding (fun _ => false) initDB
          [("S", ([1, 0] : Vec), 1)] 7 (2 / 5) false 1).2 1 15 = [] ∧
      (processEpisode (fun _ => false) true initDB [] [⟨"S", 0, 2⟩]
          [("S", ([1, 0] : Vec), 1)] 7 (2 / 5) false 1 1 15 =
        ((assign_global_speaker_ids_by_embedding (fun _ => false) initDB
            [("S", ([1, 0] : Vec), 1)] 7 (2 / 5) false 1).1,
          Outcome.exitedNoSegments, []) ∧
        (processEpisode (fun _ => false) true initDB [] [⟨"S", 0, 2⟩]
            [("S", ([1, 0] : Vec), 1)] 7 (2 / 5) false 1 1 15).1.processed =
          initDB.processed) := by
  have h : generate_final_segments_with_subtitles [] [⟨"S", 0, 2⟩]
      (assign_global_speaker_ids_by_embedding (fun _ => false) initDB
        [("S", ([1, 0] : Vec), 1)] 7 (2 / 5) false 1).2 1 15 = [] := rfl
  exact ⟨h, processEpisode_empty_segments (fun _ => false) true initDB []
    [⟨"S", 0, 2⟩] [("S", ([1, 0] : Vec), 1)] 7 (2 / 5) false 1 1 15 h⟩


/-- The pre-clamp end time of a subtitle line (lines 284-289): the next
line's timestamp when one exists, else `start + min(10.0, max_duration)`. -/
def rawEnd (t0 maxD : Rat) (rest : List (Rat × String)) : Rat :=
  match rest with
  | (next, _) :: _ => next
  | [] => t0 + min 10 maxD

theorem generate_cons (t0 : ℚ) (x0 : String) (rest : List (ℚ × String))
    (turns : List Turn) (m : List (String × Nat)) (minD maxD : ℚ) :
    generate_final_segments_with_subtitles ((t0, x0) :: rest) turns m minD maxD =
      (if min (rawEnd t0 maxD rest) (t0 + maxD) - t0 < minD ∨
          min (rawEnd t0 maxD rest) (t0 + maxD) - t0 > maxD then []
        else
          match get_dominant_speaker_in_range turns t0
              (min (rawEnd t0 maxD rest) (t0 + maxD)) with
          | none => []
          | some lab =>
            if lab = "" then []
            else
              match m.lookup lab with
              | some gid => [(t0, min (rawEnd t0 maxD rest) (t0 + maxD), gid)]
              | none => []) ++
        generate_final_segments_with_subtitles rest turns m minD maxD := rfl

/-- C7: every emitted segment comes from one subtitle line: it starts at
that line's timestamp, ends at the next line's timestamp (or at
`start + min(10.0, max_duration)` for the last line) clamped to
`start + max_duration`, and since out-of-range lines are discarded its
duration satisfies `min_duration ≤ end - start ≤ max_duration`. -/
theorem generate_final_segments_contract (subtitles : List (ℚ × String))
    (turns : List Turn) (m : List (String × Nat)) (minD maxD : ℚ) :
    ∀ seg ∈ generate_final_segments_with_subtitles subtitles turns m minD maxD,
      (∃ (pre rest : List (ℚ × String)) (txt : String),
        subtitles = pre ++ (seg.1, txt) :: rest ∧
          seg.2.1 = min (rawEnd seg.1 maxD rest) (seg.1 + maxD)) ∧
        minD ≤ seg.2.1 - seg.1 ∧ seg.2.1 - seg.1 ≤ maxD := by
  induction subtitles with
  | nil =>
      intro seg hseg
      exact absurd hseg (List.not_mem_nil seg)
  | cons hd rest ih =>
      obtain ⟨t0, x0⟩ := hd
      intro seg hseg
      rw [generate_cons, List.mem_append] at hseg
      rcases hseg with hin | hin
      · by_cases hdur : min (rawEnd t0 maxD rest) (t0 + maxD) - t0 < minD ∨
            min (rawEnd t0 maxD rest) (t0 + maxD) - t0 > maxD
        · rw [if_pos hdur] at hin
          exact absurd hin (List.not_mem_nil seg)
        · rw [if_neg hdur] at hin
          push_neg at hdur
          rcases hdom : get_dominant_speaker_in_range turns t0
              (min (rawEnd t0 maxD rest) (t0 + maxD)) with _ | lab <;>
            rw [hdom] at hin <;> dsimp only at hin
          · exact absurd hin (List.not_mem_nil seg)
          · by_cases hlab : lab = ""
            · rw [if_pos hlab] at hin
              exact absurd hin (List.not_mem_nil seg)
            · rw [if_neg hlab] at hin
              rcases hlk : m.lookup lab with _ | gid <;> rw [hlk] at hin
              · exact absurd hin (List.not_mem_nil seg)
              · have hs := List.mem_singleton.mp hin
                subst hs
                exact ⟨⟨[], rest, x0, rfl, rfl⟩, hdur.1, hdur.2⟩
      · obtain ⟨⟨pre, rest1, txt, hsplit, h2⟩, hb1, hb2⟩ := ih seg hin
        exact ⟨⟨(t0, x0) :: pre, rest1, txt, by rw [hsplit]; rfl, h2⟩, hb1, hb2⟩

theorem generate_final_segments_contract_witness :
    (((0 : ℚ), (2 : ℚ), (5 : Nat)) ∈ generate_final_segments_with_subtitles
        [(0, "x"), (2, "y")] [⟨"S", 0, 2⟩] [("S", 5)] 1 15) ∧
      ((∃ (pre rest : List (ℚ × String)) (txt : String),
        [((0 : ℚ), "x"), (2, "y")] =
            pre ++ (((0 : ℚ), (2 : ℚ), (5 : Nat)).1, txt) :: rest ∧
          ((0 : ℚ), (2 : ℚ), (5 : Nat)).2.1 =
            min (rawEnd ((0 : ℚ), (2 : ℚ), (5 : Nat)).1 15 rest)
              (((0 : ℚ), (2 : ℚ), (5 : Nat)).1 + 15)) ∧
        (1 : ℚ) ≤ ((0 : ℚ), (2 : ℚ), (5 : Nat)).2.1 - ((0 : ℚ), (2 : ℚ), (5 : Nat)).1 ∧
        ((0 : ℚ), (2 : ℚ), (5 : Nat)).2.1 - ((0 : ℚ), (2 : ℚ), (5 : Nat)).1 ≤ 15) := by
  have heval : generate_final_segments_with_subtitles
      [(0, "x"), (2, "y")] [⟨"S", 0, 2⟩] [("S", 5)] 1 15 =
        [((0 : ℚ), (2 : ℚ), (5 : Nat))] := by
    norm_num [generate_final_segments_with_subtitles, get_dominant_speaker_in_range,
      speakerDurations, overlapDuration, addDuration, pickMax, List.lookup]
    decide
  have hmem : ((0 : ℚ), (2 : ℚ), (5 : Nat)) ∈ generate_final_segments_with_subtitles
      [(0, "x"), (2, "y")] [⟨"S", 0, 2⟩] [("S", 5)] 1 15 := by
    rw [heval]
    exact List.mem_singleton.mpr rfl
  exact ⟨hmem,
    generate_final_segments_contract [(0, "x"), (2, "y")] [⟨"S", 0, 2⟩] [("S", 5)]
      1 15 ((0 : ℚ), (2 : ℚ), (5 : Nat)) hmem⟩

/-- The keys of a Python dict modelled as an association list, in
insertion order. -/
def keysOf (acc : List (String × ℚ)) : List String := acc.map Prod.fst

/-- The labels of the turns whose overlap with the window `[s, e)` is
positive, in turn order — the order in which the accumulation loop of
`get_dominant_speaker_in_range` encounters them. -/
def posLabels (s e : ℚ) (turns : List Turn) : List String :=
  (turns.filter (fun t => decide (0 < overlapDuration s e t))).map (fun t => t.label)

/-- The total overlap duration a label accumulates over all detector
turns: each of its turns contributes its overlap with the window when
positive and nothing otherwise. -/
def totalOverlap (s e : ℚ) (turns : List Turn) (lab : String) : ℚ :=
  ((turns.filter (fun t => t.label == lab)).map
    (fun t => max 0 (overlapDuration s e t))).sum

/-- First-occurrence deduplication: the insertion order of dict keys. -/
def firstKeys : List String → List String
  | [] => []
  | x :: xs => x :: (firstKeys xs).filter (fun l => decide (l ≠ x))

theorem totalOverlap_nil (s e : ℚ) (lab : String) :
    totalOverlap s e [] lab = 0 := rfl

theorem totalOverlap_cons (s e : ℚ) (t : Turn) (ts : List Turn) (lab : String) :
    totalOverlap s e (t :: ts) lab =
      if t.label = lab then
        max 0 (overlapDuration s e t) + totalOverlap s e ts lab
      else totalOverlap s e ts lab := by
  by_cases h : t.label = lab <;>
    simp [totalOverlap, List.filter_cons, h]

theorem totalOverlap_nonneg (s e : ℚ) (ts : List Turn) (lab : String) :
    0 ≤ totalOverlap s e ts lab := by
  apply List.sum_nonneg
  intro x hx
  simp only [List.mem_map] at hx
  obtain ⟨t, _, ht⟩ := hx
  rw [← ht]
  exact le_max_left 0 _

theorem posLabels_nil (s e : ℚ) : posLabels s e [] = [] := rfl

theorem posLabels_cons_pos (s e : ℚ) (t : Turn) (ts : List Turn)
    (h : 0 < overlapDuration s e t) :
    posLabels s e (t :: ts) = t.label :: posLabels s e ts := by
  simp [posLabels, List.filter_cons, h]

theorem posLabels_cons_nonpos (s e : ℚ) (t : Turn) (ts : List Turn)
    (h : ¬ 0 < overlapDuration s e t) :
    posLabels s e (t :: ts) = posLabels s e ts := by
  simp [posLabels, List.filter_cons, h]

theorem totalOverlap_eq_zero (s e : ℚ) (ts : List Turn) (lab : String)
    (h : lab ∉ posLabels s e ts) : totalOverlap s e ts lab = 0 := by
  induction ts with
  | nil => rfl
  | cons t ts ih =>
      rw [totalOverlap_cons]
      by_cases hd : 0 < overlapDuration s e t
      · rw [posLabels_cons_pos s e t ts hd, List.mem_cons] at h
        push_neg at h
        rw [if_neg (fun hc => h.1 hc.symm)]
        exact ih h.2
      · rw [posLabels_cons_nonpos s e t ts hd] at h
        have hmax : max 0 (overlapDuration s e t) = 0 :=
          max_eq_left (le_of_not_lt hd)
        split
        · rw [hmax, zero_add]
          exact ih h
        · exact ih h

theorem totalOverlap_pos (s e : ℚ) (ts : List Turn) (lab : String)
    (h : lab ∈ posLabels s e ts) : 0 < totalOverlap s e ts lab := by
  induction ts with
  | nil => cases h
  | cons t ts ih =>
      rw [totalOverlap_cons]
      by_cases hd : 0 < overlapDuration s e t
      · rw [posLabels_cons_pos s e t ts hd, List.mem_cons] at h
        have hmax : max 0 (overlapDuration s e t) = overlapDuration s e t :=
          max_eq_right (le_of_lt hd)
        rcases h with h | h
        · rw [if_pos h.symm, hmax]
          have := totalOverlap_nonneg s e ts lab
          linarith
        · split
          · rw [hmax]
            have := ih h
            linarith
          · exact ih h
      · rw [posLabels_cons_nonpos s e t ts hd] at h
        have hmax : max 0 (overlapDuration s e t) = 0 :=
          max_eq_left (le_of_not_lt hd)
        split
        · rw [hmax, zero_add]
          exact ih h
        · exact ih h

theorem addDuration_mem_keys (lab : String) (d : ℚ) :
    ∀ acc : List (String × ℚ), lab ∈ keysOf acc →
      keysOf (addDuration acc lab d) = keysOf acc := by
  intro acc
  induction acc with
  | nil => intro h; cases h
  | cons p rest ih =>
      obtain ⟨l0, d0⟩ := p
      intro h
      rw [addDuration]
      by_cases h0 : l0 = lab
      · rw [if_pos h0]
        rfl
      · rw [if_neg h0]
        have hmem : lab ∈ keysOf rest := by
          rcases List.mem_cons.mp h with hh | hh
          · exact absurd hh.symm h0
          · exact hh
        show l0 :: keysOf (addDuration rest lab d) = l0 :: keysOf rest
        rw [ih hmem]

theorem addDuration_not_mem (lab : String) (d : ℚ) :
    ∀ acc : List (String × ℚ), lab ∉ keysOf acc →
      addDuration acc lab d = acc ++ [(lab, d)] := by
  intro acc
  induction acc with
  | nil => intro _; rfl
  | cons p rest ih =>
      obtain ⟨l0, d0⟩ := p
      intro h
      rw [addDuration]
      have h0 : ¬ l0 = lab := by
        intro hc
        exact h (by rw [hc]; exact List.mem_cons_self lab _)
      rw [if_neg h0]
      have hrest : lab ∉ keysOf rest := fun hc => h (List.mem_cons_of_mem l0 hc)
      rw [ih hrest]
      rfl

theorem totalOverlap_cons_nonpos (s e : ℚ) (t : Turn) (ts : List Turn)
    (hd : ¬ 0 < overlapDuration s e t) (lab : String) :
    totalOverlap s e (t :: ts) lab = totalOverlap s e ts lab := by
  rw [totalOverlap_cons]
  split
  · rw [max_eq_left (le_of_not_lt hd), zero_add]
  · rfl

theorem totalOverlap_cons_pos_ne (s e : ℚ) (t : Turn) (ts : List Turn)
    (lab : String) (h : t.label ≠ lab) :
    totalOverlap s e (t :: ts) lab = totalOverlap s e ts lab := by
  rw [totalOverlap_cons, if_neg h]

theorem addDuration_map_blend (s e : ℚ) (ts : List Turn) (t : Turn)
    (hd : 0 < overlapDuration s e t) :
    ∀ acc : List (String × ℚ), (keysOf acc).Nodup → t.label ∈ keysOf acc →
      (addDuration acc t.label (overlapDuration s e t)).map
          (fun p => (p.1, p.2 + totalOverlap s e ts p.1)) =
        acc.map (fun p => (p.1, p.2 + totalOverlap s e (t :: ts) p.1)) := by
  have hmax : max 0 (overlapDuration s e t) = overlapDuration s e t :=
    max_eq_right (le_of_lt hd)
  intro acc
  induction acc with
  | nil => intro _ h; cases h
  | cons p rest ihacc =>
      obtain ⟨l0, d0⟩ := p
      intro hnd hm
      have hnd' := hnd
      rw [keysOf, List.map_cons, List.nodup_cons] at hnd'
      rw [addDuration]
      by_cases h0 : l0 = t.label
      · rw [if_pos h0]
        simp only [List.map_cons]
        have hhead : d0 + overlapDuration s e t + totalOverlap s e ts l0 =
            d0 + totalOverlap s e (t :: ts) l0 := by
          rw [totalOverlap_cons, if_pos h0.symm, hmax]
          ring
        rw [hhead]
        have htail : rest.map (fun p => (p.1, p.2 + totalOverlap s e ts p.1)) =
            rest.map (fun p => (p.1, p.2 + totalOverlap s e (t :: ts) p.1)) := by
          apply List.map_congr_left
          intro p hp
          have hplab : p.1 ≠ t.label := by
            intro hc
            apply hnd'.1
            rw [h0, ← hc]
            exact List.mem_map.mpr ⟨p, hp, rfl⟩
          rw [totalOverlap_cons_pos_ne s e t ts p.1 (fun hc => hplab hc.symm)]
        rw [htail]
      · rw [if_neg h0]
        simp only [List.map_cons]
        have hhead : d0 + totalOverlap s e ts l0 = d0 + totalOverlap s e (t :: ts) l0 := by
          rw [totalOverlap_cons_pos_ne s e t ts l0 (fun hc => h0 hc.symm)]
        rw [hhead]
        have hmem : t.label ∈ keysOf rest := by
          rcases List.mem_cons.mp hm with hh | hh
          · exact absurd hh.symm h0
          · exact hh
        rw [ihacc hnd'.2 hmem]

theorem speakerDurations_canon (s e : ℚ) :
    ∀ (ts : List Turn) (acc : List (String × ℚ)), (keysOf acc).Nodup →
      speakerDurations s e ts acc =
        acc.map (fun p => (p.1, p.2 + totalOverlap s e ts p.1)) ++
          ((firstKeys (posLabels s e ts)).filter
            (fun l => decide (l ∉ keysOf acc))).map
            (fun l => (l, totalOverlap s e ts l)) := by
  intro ts
  induction ts with
  | nil =>
      intro acc hnd
      rw [speakerDurations]
      simp [totalOverlap_nil, posLabels_nil, firstKeys]
  | cons t ts ih =>
      intro acc hnd
      by_cases hd : 0 < overlapDuration s e t
      · have hmax : max 0 (overlapDuration s e t) = overlapDuration s e t :=
          max_eq_right (le_of_lt hd)
        rw [speakerDurations, if_pos hd,
          posLabels_cons_pos s e t ts hd, firstKeys]
        by_cases hm : t.label ∈ keysOf acc
        · have hkeys := addDuration_mem_keys t.label (overlapDuration s e t) acc hm
          have hnd2 : (keysOf (addDuration acc t.label (overlapDuration s e t))).Nodup := by
            rw [hkeys]; exact hnd
          rw [ih _ hnd2, hkeys,
            addDuration_map_blend s e ts t hd acc hnd hm]
          -- the fresh-key part: drop the head key (already present) and merge filters
          have hheadfalse : decide (t.label ∉ keysOf acc) = false := by
            simp [hm]
          rw [List.filter_cons, hheadfalse]
          simp only [Bool.false_eq_true, if_false]
          have hfresh : ((firstKeys (posLabels s e ts)).filter
                (fun l => decide (l ≠ t.label))).filter
              (fun l => decide (l ∉ keysOf acc)) =
              (firstKeys (posLabels s e ts)).filter
                (fun l => decide (l ∉ keysOf acc)) := by
            rw [List.filter_filter]
            apply List.filter_congr
            intro l _
            by_cases hl : l = t.label
            · subst hl
              simp [hm]
            · simp [hl]
          rw [hfresh]
          congr 1
          apply List.map_congr_left
          intro l hl
          have hlmem := (List.mem_filter.mp hl).2
          have hlne : t.label ≠ l := by
            intro hc
            rw [← hc] at hlmem
            simp [hm] at hlmem
          rw [totalOverlap_cons_pos_ne s e t ts l hlne]
        · -- fresh key: the loop appends a new dict entry at the end
          have hadd := addDuration_not_mem t.label (overlapDuration s e t) acc hm
          have hkeys2 : keysOf (acc ++ [(t.label, overlapDuration s e t)]) =
              keysOf acc ++ [t.label] := by
            rw [keysOf, List.map_append]
            rfl
          have hnd2 : (keysOf (acc ++ [(t.label, overlapDuration s e t)])).Nodup := by
            rw [hkeys2, List.nodup_append]
            refine ⟨hnd, List.nodup_singleton _, ?_⟩
            intro a ha hb
            rw [List.mem_singleton] at hb
            subst hb
            exact hm ha
          rw [hadd, ih _ hnd2]
          -- head of the fresh keys survives the filter and carries d + total
          have hheadtrue : decide (t.label ∉ keysOf acc) = true := by
            simp [hm]
          rw [List.filter_cons, hheadtrue]
          simp only [if_true]
          -- left side: split the appended row off the dict part
          rw [List.map_append]
          have hheadval : ((t.label, overlapDuration s e t) : String × ℚ).2 +
              totalOverlap s e ts ((t.label, overlapDuration s e t) : String × ℚ).1 =
              totalOverlap s e (t :: ts) t.label := by
            rw [totalOverlap_cons, if_pos rfl, hmax]
          -- dict rows other than the fresh one keep their totals
          have hmapacc : acc.map (fun p => (p.1, p.2 + totalOverlap s e ts p.1)) =
              acc.map (fun p => (p.1, p.2 + totalOverlap s e (t :: ts) p.1)) := by
            apply List.map_congr_left
            intro p hp
            have hpne : t.label ≠ p.1 := by
              intro hc
              apply hm
              rw [hc]
              exact List.mem_map.mpr ⟨p, hp, rfl⟩
            rw [totalOverlap_cons_pos_ne s e t ts p.1 hpne]
          rw [hmapacc]
          -- the remaining fresh keys: adjust the filter and the totals
          have hfresh2 : (firstKeys (posLabels s e ts)).filter
                (fun l => decide (l ∉ keysOf (acc ++ [(t.label, overlapDuration s e t)]))) =
              ((firstKeys (posLabels s e ts)).filter
                (fun l => decide (l ≠ t.label))).filter
                (fun l => decide (l ∉ keysOf acc)) := by
            rw [List.filter_filter]
            apply List.filter_congr
            intro l _
            rw [hkeys2]
            by_cases hl : l = t.label
            · subst hl
              simp
            · by_cases hk : l ∈ keysOf acc <;> simp [hl, hk]
          rw [hfresh2]
          have hmapfresh : (((firstKeys (posLabels s e ts)).filter
                  (fun l => decide (l ≠ t.label))).filter
                (fun l => decide (l ∉ keysOf acc))).map
                (fun l => (l, totalOverlap s e ts l)) =
              (((firstKeys (posLabels s e ts)).filter
                  (fun l => decide (l ≠ t.label))).filter
                (fun l => decide (l ∉ keysOf acc))).map
                (fun l => (l, totalOverlap s e (t :: ts) l)) := by
            apply List.map_congr_left
            intro l hl
            have hlne : t.label ≠ l := by
              have := (List.mem_filter.mp (List.mem_filter.mp hl).1).2
              intro hc
              rw [← hc] at this
              simp at this
            rw [totalOverlap_cons_pos_ne s e t ts l hlne]
          rw [hmapfresh]
          rw [List.map_cons, hheadval]
          rw [List.append_assoc]
          rfl
      · rw [speakerDurations, if_neg hd, ih acc hnd,
          posLabels_cons_nonpos s e t ts hd]
        have hfun : (fun (p : String × ℚ) => (p.1, p.2 + totalOverlap s e ts p.1)) =
            (fun p => (p.1, p.2 + totalOverlap s e (t :: ts) p.1)) := by
          funext p
          rw [totalOverlap_cons_nonpos s e t ts hd]
        have hfun2 : (fun l => ((l, totalOverlap s e ts l) : String × ℚ)) =
            (fun l => (l, totalOverlap s e (t :: ts) l)) := by
          funext l
          rw [totalOverlap_cons_nonpos s e t ts hd]
        rw [hfun, hfun2]

/-- Index of the first occurrence of a label in a list (the position of a
label's first encounter). -/
def firstIdx (lab : String) : List String → Nat
  | [] => 0
  | x :: xs => if x = lab then 0 else firstIdx lab xs + 1

theorem speakerDurations_base (s e : ℚ) (turns : List Turn) :
    speakerDurations s e turns [] =
      (firstKeys (posLabels s e turns)).map
        (fun l => (l, totalOverlap s e turns l)) := by
  rw [speakerDurations_canon s e turns [] List.nodup_nil]
  simp [keysOf]

theorem mem_firstKeys (l : String) : ∀ ls : List String, l ∈ firstKeys ls ↔ l ∈ ls := by
  intro ls
  induction ls with
  | nil => simp [firstKeys]
  | cons x xs ih =>
      rw [firstKeys]
      simp only [List.mem_cons]
      constructor
      · rintro (rfl | h)
        · exact Or.inl rfl
        · exact Or.inr (ih.mp (List.mem_of_mem_filter h))
      · rintro (rfl | h)
        · exact Or.inl rfl
        · by_cases hx : l = x
          · exact Or.inl hx
          · exact Or.inr (List.mem_filter.mpr ⟨ih.mpr h, by simp [hx]⟩)

theorem pickMax_spec (xs : List (String × ℚ)) :
    ∀ x : String × ℚ,
      pickMax x xs ∈ x :: xs ∧
        (∀ p ∈ x :: xs, p.2 ≤ (pickMax x xs).2) ∧
        ∃ pre post, x :: xs = pre ++ pickMax x xs :: post ∧
          ∀ p ∈ pre, p.2 < (pickMax x xs).2 := by
  induction xs with
  | nil =>
      intro x
      refine ⟨List.mem_singleton.mpr rfl, ?_, [], [], rfl, ?_⟩
      · intro p hp
        rw [List.mem_singleton] at hp
        subst hp
        exact le_refl _
      · intro p hp
        cases hp
  | cons q qs ih =>
      intro x
      have hfold : pickMax x (q :: qs) = pickMax (if q.2 > x.2 then q else x) qs := rfl
      by_cases hq : q.2 > x.2
      · rw [hfold, if_pos hq]
        obtain ⟨hmem, hge, pre, post, hsplit, hpre⟩ := ih q
        refine ⟨List.mem_cons_of_mem x hmem, ?_, x :: pre, post, ?_, ?_⟩
        · intro p hp
          rcases List.mem_cons.mp hp with rfl | h
          · exact le_of_lt (lt_of_lt_of_le hq (hge q (List.mem_cons_self q qs)))
          · exact hge p h
        · rw [List.cons_append, ← hsplit]
        · intro p hp
          rcases List.mem_cons.mp hp with rfl | h
          · exact lt_of_lt_of_le hq (hge q (List.mem_cons_self q qs))
          · exact hpre p h
      · rw [hfold, if_neg hq]
        obtain ⟨hmem, hge, pre, post, hsplit, hpre⟩ := ih x
        have hqle : q.2 ≤ x.2 := le_of_not_lt hq
        have hxle : x.2 ≤ (pickMax x qs).2 := hge x (List.mem_cons_self x qs)
        refine ⟨?_, ?_, ?_⟩
        · rcases List.mem_cons.mp hmem with h | h
          · rw [h]
            exact List.mem_cons_self x (q :: qs)
          · exact List.mem_cons_of_mem x (List.mem_cons_of_mem q h)
        · intro p hp
          rcases List.mem_cons.mp hp with rfl | hp2
          · exact hxle
          rcases List.mem_cons.mp hp2 with rfl | hp3
          · exact le_trans hqle hxle
          · exact hge p (List.mem_cons_of_mem x hp3)
        · cases pre with
          | nil =>
              rw [List.nil_append] at hsplit
              injection hsplit with h1 h2
              refine ⟨[], q :: qs, ?_, ?_⟩
              · rw [List.nil_append, ← h1]
              · intro p hp
                cases hp
          | cons c pre2 =>
              rw [List.cons_append] at hsplit
              injection hsplit with h1 h2
              refine ⟨x :: q :: pre2, post, ?_, ?_⟩
              · rw [List.cons_append, List.cons_append, ← h2]
              · intro p hp
                have hcx : c.2 < (pickMax x qs).2 :=
                  hpre c (List.mem_cons_self c pre2)
                rw [← h1] at hcx
                rcases List.mem_cons.mp hp with rfl | hp2
                · exact hcx
                rcases List.mem_cons.mp hp2 with rfl | hp3
                · exact lt_of_le_of_lt hqle hcx
                · exact hpre p (List.mem_cons_of_mem c hp3)

theorem filter_split_mem (p : String → Bool) (b : String) :
    ∀ (K pre post : List String) (a : String),
      K.filter p = pre ++ a :: post → b ∈ post →
        ∃ P Q, K = P ++ a :: Q ∧ b ∈ Q := by
  intro K
  induction K with
  | nil =>
      intro pre post a h hb
      rw [List.filter_nil] at h
      cases pre <;> simp at h
  | cons k K2 ih =>
      intro pre post a h hb
      rw [List.filter_cons] at h
      by_cases hp : p k = true
      · rw [if_pos hp] at h
        cases pre with
        | nil =>
            rw [List.nil_append] at h
            injection h with h1 h2
            refine ⟨[], K2, by rw [List.nil_append, h1], ?_⟩
            rw [← h2] at hb
            exact List.mem_of_mem_filter hb
        | cons c pre2 =>
            rw [List.cons_append] at h
            injection h with h1 h2
            obtain ⟨P, Q, hK, hbQ⟩ := ih pre2 post a h2 hb
            exact ⟨k :: P, Q, by rw [List.cons_append, ← hK], hbQ⟩
      · rw [if_neg hp] at h
        obtain ⟨P, Q, hK, hbQ⟩ := ih pre post a h hb
        exact ⟨k :: P, Q, by rw [List.cons_append, ← hK], hbQ⟩

theorem firstKeys_before (a b : String) :
    ∀ (ls pre post : List String), firstKeys ls = pre ++ a :: post → b ∈ post →
      firstIdx a ls < firstIdx b ls := by
  intro ls
  induction ls with
  | nil =>
      intro pre post h hb
      rw [firstKeys] at h
      cases pre <;> simp at h
  | cons x xs ih =>
      intro pre post h hb
      rw [firstKeys] at h
      cases pre with
      | nil =>
          rw [List.nil_append] at h
          injection h with h1 h2
          have hbx : ¬ x = b := by
            intro hc
            rw [← h2] at hb
            have := (List.mem_filter.mp hb).2
            rw [← hc] at this
            simp at this
          rw [firstIdx, if_pos h1, firstIdx, if_neg hbx]
          omega
      | cons c pre2 =>
          rw [List.cons_append] at h
          injection h with h1 h2
          have hax : ¬ x = a := by
            intro hc
            have hmem : a ∈ (firstKeys xs).filter (fun l => decide (l ≠ x)) := by
              rw [h2]
              exact List.mem_append_right pre2 (List.mem_cons_self a post)
            have := (List.mem_filter.mp hmem).2
            rw [← hc] at this
            simp at this
          have hbx : ¬ x = b := by
            intro hc
            have hmem : b ∈ (firstKeys xs).filter (fun l => decide (l ≠ x)) := by
              rw [h2]
              exact List.mem_append_right pre2 (List.mem_cons_of_mem a hb)
            have := (List.mem_filter.mp hmem).2
            rw [← hc] at this
            simp at this
          obtain ⟨P, Q, hK, hbQ⟩ :=
            filter_split_mem (fun l => decide (l ≠ x)) b (firstKeys xs) pre2 post a h2 hb
          have hrec := ih P Q hK hbQ
          rw [firstIdx, if_neg hax, firstIdx, if_neg hbx]
          omega

theorem map_pair_split (g : String → String × ℚ) (c : String × ℚ) (b : String × ℚ) :
    ∀ (K : List String) (pre post : List (String × ℚ)),
      K.map g = pre ++ c :: post → b ∈ post →
        ∃ K1 k K2, K = K1 ++ k :: K2 ∧ g k = c ∧ ∃ k2 ∈ K2, g k2 = b := by
  intro K
  induction K with
  | nil =>
      intro pre post h hb
      cases pre <;> simp at h
  | cons a K2 ih =>
      intro pre post h hb
      rw [List.map_cons] at h
      cases pre with
      | nil =>
          rw [List.nil_append] at h
          injection h with h1 h2
          refine ⟨[], a, K2, rfl, h1, ?_⟩
          rw [← h2] at hb
          obtain ⟨k2, hk2, hgk2⟩ := List.mem_map.mp hb
          exact ⟨k2, hk2, hgk2⟩
      | cons d pre2 =>
          rw [List.cons_append] at h
          injection h with h1 h2
          obtain ⟨K1, k, K2b, hK, hgk, hex⟩ := ih pre2 post h2 hb
          exact ⟨a :: K1, k, K2b, by rw [List.cons_append, ← hK], hgk, hex⟩

/-- C8: the dominant-speaker lookup accumulates, per local label, the
positive overlaps of that label's turns with the subtitle window; it
returns `None` when no turn positively overlaps the window, and otherwise
the label with the largest accumulated overlap, ties broken in favour of
the label first encountered in turn order (its first positively
overlapping turn comes first); and a line whose window has no dominant
speaker, or whose winning label is absent from the local→global map,
produces no segment. -/
theorem dominant_speaker_spec (turns : List Turn) (s e : ℚ) :
    ((∀ t ∈ turns, overlapDuration s e t ≤ 0) →
        get_dominant_speaker_in_range turns s e = none) ∧
      (∀ lab, get_dominant_speaker_in_range turns s e = some lab →
        (∀ lab', totalOverlap s e turns lab' ≤ totalOverlap s e turns lab) ∧
        (∀ lab', lab' ≠ lab →
          totalOverlap s e turns lab' = totalOverlap s e turns lab →
          firstIdx lab (posLabels s e turns) < firstIdx lab' (posLabels s e turns))) ∧
      (∀ (t0 : ℚ) (x0 : String) (rest : List (ℚ × String))
          (m : List (String × Nat)) (minD maxD : ℚ),
        (get_dominant_speaker_in_range turns t0
            (min (rawEnd t0 maxD rest) (t0 + maxD)) = none ∨
          ∃ lab, get_dominant_speaker_in_range turns t0
              (min (rawEnd t0 maxD rest) (t0 + maxD)) = some lab ∧
            m.lookup lab = none) →
        generate_final_segments_with_subtitles ((t0, x0) :: rest) turns m minD maxD =
          generate_final_segments_with_subtitles rest turns m minD maxD) := by
  refine ⟨?_, ?_, ?_⟩
  · intro hall
    have hpos : posLabels s e turns = [] := by
      unfold posLabels
      rw [List.filter_eq_nil_iff.mpr]
      · rfl
      · intro t ht
        simp [not_lt.mpr (hall t ht)]
    unfold get_dominant_speaker_in_range
    rw [speakerDurations_base, hpos]
    rfl
  · intro lab hdom
    unfold get_dominant_speaker_in_range at hdom
    rw [speakerDurations_base] at hdom
    rcases hml : (firstKeys (posLabels s e turns)).map
        (fun l => (l, totalOverlap s e turns l)) with _ | ⟨c, cs⟩ <;>
      rw [hml] at hdom
    · cases hdom
    · have hlab : (pickMax c cs).1 = lab := Option.some.inj hdom
      obtain ⟨hmem, hge, pre, post, hsplit, hpre⟩ := pickMax_spec cs c
      have hpkmem : pickMax c cs ∈ (firstKeys (posLabels s e turns)).map
          (fun l => (l, totalOverlap s e turns l)) := by
        rw [hml]
        exact hmem
      obtain ⟨l0, hl0mem, hl0⟩ := List.mem_map.mp hpkmem
      have hfst : lab = l0 := by rw [← hlab, ← hl0]
      have hpk2 : (pickMax c cs).2 = totalOverlap s e turns lab := by
        rw [hfst, ← hl0]
      have hlabpos : lab ∈ posLabels s e turns := by
        rw [hfst]
        exact (mem_firstKeys l0 _).mp hl0mem
      have hTpos : 0 < totalOverlap s e turns lab :=
        totalOverlap_pos s e turns lab hlabpos
      have hmax : ∀ lab', totalOverlap s e turns lab' ≤ totalOverlap s e turns lab := by
        intro lab'
        by_cases hin : lab' ∈ posLabels s e turns
        · have hin2 : (lab', totalOverlap s e turns lab') ∈ c :: cs := by
            rw [← hml]
            exact List.mem_map.mpr ⟨lab', (mem_firstKeys lab' _).mpr hin, rfl⟩
          have hle := hge _ hin2
          rw [hpk2] at hle
          exact hle
        · rw [totalOverlap_eq_zero s e turns lab' hin]
          exact le_of_lt hTpos
      refine ⟨hmax, ?_⟩
      intro lab' hne htie
      have hT' : 0 < totalOverlap s e turns lab' := by
        rw [htie]
        exact hTpos
      have hin' : lab' ∈ posLabels s e turns := by
        by_contra hc
        rw [totalOverlap_eq_zero s e turns lab' hc] at hT'
        exact lt_irrefl 0 hT'
      have hin2 : (lab', totalOverlap s e turns lab') ∈ c :: cs := by
        rw [← hml]
        exact List.mem_map.mpr ⟨lab', (mem_firstKeys lab' _).mpr hin', rfl⟩
      have hpost : (lab', totalOverlap s e turns lab') ∈ post := by
        rw [hsplit] at hin2
        rcases List.mem_append.mp hin2 with hp | hp
        · exfalso
          have hlt := hpre _ hp
          rw [hpk2, htie] at hlt
          exact lt_irrefl _ hlt
        · rcases List.mem_cons.mp hp with hp2 | hp2
          · exfalso
            apply hne
            have h1 : (lab', totalOverlap s e turns lab').1 = (pickMax c cs).1 := by
              rw [hp2]
            rw [hlab] at h1
            exact h1
          · exact hp2
      have hmapsplit : (firstKeys (posLabels s e turns)).map
          (fun l => (l, totalOverlap s e turns l)) = pre ++ pickMax c cs :: post := by
        rw [hml]
        exact hsplit
      obtain ⟨K1, k, K2, hK, hgk, k2, hk2mem, hgk2⟩ :=
        map_pair_split (fun l => (l, totalOverlap s e turns l)) (pickMax c cs)
          (lab', totalOverlap s e turns lab') (firstKeys (posLabels s e turns))
          pre post hmapsplit hpost
      have hkeq : k = lab := by
        have h1 : (k, totalOverlap s e turns k).1 = (pickMax c cs).1 := by
          rw [hgk]
        rw [hlab] at h1
        exact h1
      have hk2eq : k2 = lab' := by
        have h1 : (k2, totalOverlap s e turns k2).1 =
            (lab', totalOverlap s e turns lab').1 := by
          rw [hgk2]
        exact h1
      rw [hkeq] at hK
      rw [hk2eq] at hk2mem
      exact firstKeys_before lab lab' (posLabels s e turns) K1 K2 hK hk2mem
  · intro t0 x0 rest m minD maxD hno
    rw [generate_cons]
    by_cases hdur : min (rawEnd t0 maxD rest) (t0 + maxD) - t0 < minD ∨
        min (rawEnd t0 maxD rest) (t0 + maxD) - t0 > maxD
    · rw [if_pos hdur, List.nil_append]
    · rw [if_neg hdur]
      rcases hno with hnone | ⟨lab, hsome, hlk⟩
      · rw [hnone]
        dsimp only
        rw [List.nil_append]
      · rw [hsome]
        dsimp only
        by_cases hlab : lab = ""
        · rw [if_pos hlab, List.nil_append]
        · rw [if_neg hlab, hlk]
          dsimp only
          rw [List.nil_append]

theorem dominant_speaker_spec_witness :
    get_dominant_speaker_in_range [⟨"A", 0, 1⟩, ⟨"B", 1, 2⟩] 0 2 = some "A" ∧
      ((∀ lab', totalOverlap 0 2 [⟨"A", 0, 1⟩, ⟨"B", 1, 2⟩] lab' ≤
          totalOverlap 0 2 [⟨"A", 0, 1⟩, ⟨"B", 1, 2⟩] "A") ∧
        (∀ lab', lab' ≠ "A" →
          totalOverlap 0 2 [⟨"A", 0, 1⟩, ⟨"B", 1, 2⟩] lab' =
            totalOverlap 0 2 [⟨"A", 0, 1⟩, ⟨"B", 1, 2⟩] "A" →
          firstIdx "A" (posLabels 0 2 [⟨"A", 0, 1⟩, ⟨"B", 1, 2⟩]) <
            firstIdx lab' (posLabels 0 2 [⟨"A", 0, 1⟩, ⟨"B", 1, 2⟩]))) := by
  have hdom : get_dominant_speaker_in_range [⟨"A", 0, 1⟩, ⟨"B", 1, 2⟩] 0 2 =
      some "A" := by
    norm_num [get_dominant_speaker_in_range, speakerDurations, overlapDuration,
      addDuration, pickMax]
    rw [if_neg (by decide : ¬ "A" = "B")]
    norm_num
  exact ⟨hdom, (dominant_speaker_spec [⟨"A", 0, 1⟩, ⟨"B", 1, 2⟩] 0 2).2.1 "A" hdom⟩

end SETDrama
